import Mathlib

/-!
Verification of pyxact (a declarative Python-to-SQL mapping layer) against its
natural-language specification.  The development is a shallow embedding of the
modules `pyxact/fields.py`, `pyxact/tables.py`, `pyxact/records.py`,
`pyxact/recordlists.py`, `pyxact/dialects.py` and `pyxact/transactions.py`:

* Python runtime values that flow through field slots and context dictionaries
  become the inductive type `PyValue` (None, bool, int, str and
  `decimal.Decimal`, the latter as a coefficient/exponent pair).
* Python exceptions raised by the library become the error type `PyErr`;
  fallible operations return `Except PyErr`.
* A context dictionary (string-keyed, insertion-ordered, as Python 3.7+ dicts
  are) becomes an association list `Ctx` with dict-update semantics.
* Descriptor classes (`SQLField` and its subclasses) are split into their
  per-class static data (`FieldType`, `FieldKind`) and the per-instance slot
  value, which is threaded explicitly wherever the Python code mutates it.
* Database cursors are not executed: the cursor operations a method would
  perform are collected into a trace (`CursorOp` list), and values that would
  come back from the database (sequence `nextval`, query results) are supplied
  by an oracle function.
-/

namespace Pyxact

/-- A Python runtime value as used by pyxact: `None`, `bool`, `int`, `str`, or
`decimal.Decimal`.  A decimal is modelled in sign-magnitude-free form as an
integer coefficient and an exponent, the value being `coeff * 10 ^ exp`
(mirroring the (sign, digits, exponent) triple of the `decimal` module). -/
inductive PyValue where
  | none
  | bool (b : Bool)
  | int (n : Int)
  | str (s : String)
  | dec (coeff : Int) (exp : Int)
  deriving DecidableEq, Repr

/-- Python exceptions raised by pyxact code paths modelled here.
`verification` is `pyxact.VerificationError` (optionally carrying a message),
`unconstrainedWhere` is `UnconstrainedWhereError`, `contextRequired` is
`ContextRequiredError`; `inexact` and `invalidOperation` are the trapped
`decimal` module signals; `keyError` stands for a Python `KeyError` (a lookup
of a name the class-construction machinery would have validated). -/
inductive PyErr where
  | typeError
  | valueError
  | contextRequired
  | unconstrainedWhere
  | verification (msg : Option String)
  | inexact
  | invalidOperation
  | keyError
  deriving DecidableEq, Repr

namespace PyValue

/-- Python truthiness of a value: `bool(value)`.  `None`, `False`, `0`, the
empty string and `Decimal(0)` are falsy. -/
def truthy : PyValue → Bool
  | .none => false
  | .bool b => b
  | .int n => n ≠ 0
  | .str s => s ≠ ""
  | .dec c _ => c ≠ 0

/-- The numeric view of a value, when it has one: Python treats `bool` as a
subtype of `int` and compares `int` and `Decimal` by numeric value.  Returns
the value as a coefficient/exponent pair. -/
def toScaled? : PyValue → Option (Int × Int)
  | .bool b => some (if b then 1 else 0, 0)
  | .int n => some (n, 0)
  | .dec c e => some (c, e)
  | _ => Option.none

end PyValue

/-- Numeric equality of two coefficient/exponent pairs:
`c1 * 10 ^ e1 = c2 * 10 ^ e2`, decided by rescaling to the smaller exponent. -/
def decEqVal (c1 e1 c2 e2 : Int) : Bool :=
  if e1 ≥ e2 then c1 * (10 : Int) ^ (e1 - e2).toNat == c2
  else c1 == c2 * (10 : Int) ^ (e2 - e1).toNat

/-- Python `==` on the modelled values: numeric values (bool/int/Decimal)
compare by value across types, strings compare to strings, `None` only to
`None`, and any other cross-type comparison is unequal. -/
def pyEq (a b : PyValue) : Bool :=
  match a.toScaled?, b.toScaled? with
  | some (c1, e1), some (c2, e2) => decEqVal c1 e1 c2 e2
  | _, _ =>
    match a, b with
    | .str s, .str t => s == t
    | .none, .none => true
    | _, _ => false

/-- Python `value + 1` as used by `RowEnumIntField.get_context`
(fields.py line 188).  Succeeds on numeric values (`bool` is an `int`
subtype; `Decimal + 1` is exact addition at the smaller of the exponent and
zero), raises `TypeError` on `None` and `str`. -/
def pyAdd1 : PyValue → Except PyErr PyValue
  | .int n => .ok (.int (n + 1))
  | .bool b => .ok (.int ((if b then 1 else 0) + 1))
  | .dec c e =>
    if e ≤ 0 then .ok (.dec (c + (10 : Int) ^ (-e).toNat) e)
    else .ok (.dec (c * (10 : Int) ^ e.toNat + 1) 0)
  | _ => .error .typeError

/-- A context dictionary: a string-keyed, insertion-ordered map, as a Python
dict is.  Used both for the transaction context dictionaries and for keyword
maps handed to `context_select_sql`. -/
abbrev Ctx := List (String × PyValue)

/-- Dict lookup `ctx[k]` as an `Option`. -/
def ctxLookup : Ctx → String → Option PyValue
  | [], _ => Option.none
  | (k, v) :: rest, key => if k == key then some v else ctxLookup rest key

/-- Dict membership `k in ctx`. -/
def ctxMem (ctx : Ctx) (k : String) : Bool :=
  (ctxLookup ctx k).isSome

/-- Dict assignment `ctx[k] = v`: replaces the value in place when the key is
present (Python dicts keep the original insertion position), appends the pair
otherwise. -/
def ctxSet : Ctx → String → PyValue → Ctx
  | [], key, v => [(key, v)]
  | (k, w) :: rest, key, v =>
    if k == key then (k, v) :: rest else (k, w) :: ctxSet rest key v

/-! ### Decimal arithmetic used by `NumericField` (fields.py lines 196-237) -/

/-- The number of decimal digits of a natural number, `len(str(n))`; zero has
one digit, as the zero coefficient of a `Decimal` does. -/
def digitCount (n : Nat) : Nat := (Nat.toDigits 10 n).length

/-- Division of `a` by `d` rounded with ROUND_HALF_EVEN (banker's rounding),
the default rounding of a `decimal.Context` built with `rounding=None` as
`NumericField.__init__` builds its context. -/
def roundHalfEvenNat (a d : Nat) : Nat :=
  let q := a / d
  let r := a % d
  if 2 * r < d then q
  else if 2 * r > d then q + 1
  else if q % 2 = 0 then q else q + 1

/-- `Decimal(c, e).quantize(Decimal(1).scaleb(-scale), context)` where the
context has precision `prec`, rounding ROUND_HALF_EVEN, and traps
InvalidOperation always and Inexact exactly when `inexactQuantize` is false —
the context `NumericField.__init__` constructs (fields.py lines 203-223).
Mirrors `_pydecimal.Decimal.quantize`: the result is rescaled to exponent
`-scale`; a result coefficient longer than the precision raises
InvalidOperation (checked first), and a lossy rescale then raises Inexact when
trapped.  Floats never reach this function (`PyValue` has no float, matching
the default `allow_floats=False` path). -/
def decQuantize (c e : Int) (scale prec : Nat) (inexactQuantize : Bool) :
    Except PyErr (Int × Int) :=
  let t : Int := -(scale : Int)
  if t ≤ e then
    let c' := c * (10 : Int) ^ (e - t).toNat
    if digitCount c'.natAbs > prec then .error .invalidOperation
    else .ok (c', t)
  else
    let a := c.natAbs
    let d := (10 : Nat) ^ (t - e).toNat
    let q := roundHalfEvenNat a d
    if digitCount q > prec then .error .invalidOperation
    else if a % d ≠ 0 ∧ inexactQuantize = false then .error .inexact
    else .ok (if c < 0 then -(q : Int) else (q : Int), t)

/-! ### Field classes (fields.py): static class data and value assignment -/

/-- The static data of the modelled `SQLField` subclasses:
`IntField`/`SmallIntField`/`BigIntField` (all with `py_type=int`),
`BooleanField`, `TextField`, `VarCharField`/`CharField` (which differ only in
DDL, not in value handling), and `NumericField`. -/
inductive FieldType where
  | intF
  | boolF
  | textF
  | varChar (maxLength : Nat) (silentTruncate : Bool)
  | numeric (precision scale : Nat) (allowFloats inexactQuantize : Bool)
  deriving DecidableEq, Repr

/-- `self.py_type is not None and isinstance(value, self.py_type)` (fields.py
line 41).  In Python `bool` is a subclass of `int`, so a bool is an instance
of `int`.  `VarCharField` and `NumericField` pass `py_type=None`, so no value
matches directly and every assignment goes through `convert`. -/
def pyTypeInstance : FieldType → PyValue → Bool
  | .intF, .int _ => true
  | .intF, .bool _ => true
  | .boolF, .bool _ => true
  | .textF, .str _ => true
  | _, _ => false

/-- A non-empty all-digit character list read as a natural number. -/
def digitsToNat? (l : List Char) : Option Nat :=
  if l.isEmpty then Option.none
  else if l.all (fun c => c.isDigit) then
    some (l.foldl (fun acc c => acc * 10 + (c.toNat - 48)) 0)
  else Option.none

/-- A decimal integer literal with an optional sign. -/
def parseSignedNat? : List Char → Option Int
  | '-' :: rest => (digitsToNat? rest).map (fun n => -(n : Int))
  | '+' :: rest => (digitsToNat? rest).map (fun n => (n : Int))
  | l => (digitsToNat? l).map (fun n => (n : Int))

/-- Python `int(s)` on a decimal string: an optional sign and digits.
(The surrounding-whitespace and underscore-separator lenience of `int` is not
modelled.)  `Option.none` where Python raises ValueError. -/
def strToInt? (s : String) : Option Int :=
  parseSignedNat? s.data

/-- The coefficient and fractional-digit exponent of an unsigned decimal
mantissa `digits[.digits]` (at least one digit in total). -/
def parseUnsignedMantissa? (l : List Char) : Option (Nat × Int) :=
  let ip := l.takeWhile (fun c => !(c == '.'))
  let rest := l.dropWhile (fun c => !(c == '.'))
  let fp := match rest with
    | [] => []
    | _ :: fr => fr
  if (ip ++ fp).isEmpty then Option.none
  else if (ip ++ fp).all (fun c => c.isDigit) then
    (digitsToNat? (ip ++ fp)).map (fun n => (n, -(fp.length : Int)))
  else Option.none

/-- A signed decimal mantissa. -/
def parseMantissa? : List Char → Option (Int × Int)
  | '-' :: rest => (parseUnsignedMantissa? rest).map (fun p => (-(p.1 : Int), p.2))
  | '+' :: rest => (parseUnsignedMantissa? rest).map (fun p => ((p.1 : Int), p.2))
  | l => (parseUnsignedMantissa? l).map (fun p => ((p.1 : Int), p.2))

/-- Python `Decimal(s)` on a numeric string `[sign]digits[.digits][E[sign]digits]`,
returned as a coefficient/exponent pair.  (NaN, infinities and whitespace
lenience are not modelled.)  `Option.none` where `Decimal` would signal
ConversionSyntax/InvalidOperation. -/
def strToDec? (s : String) : Option (Int × Int) :=
  let mant := s.data.takeWhile (fun c => !(c == 'e' || c == 'E'))
  let rest := s.data.dropWhile (fun c => !(c == 'e' || c == 'E'))
  match rest with
  | [] => parseMantissa? mant
  | _ :: erest => do
    let m ← parseMantissa? mant
    let ex ← parseSignedNat? erest
    pure (m.1, m.2 + ex)

/-- `AbstractIntField.convert` (fields.py lines 145-150): ints (and bools,
which are ints) pass through, strings go through `int()` (ValueError on a
malformed string), everything else raises TypeError. -/
def intConvert : PyValue → Except PyErr PyValue
  | .int n => .ok (.int n)
  | .bool b => .ok (.bool b)
  | .str s =>
    match strToInt? s with
    | some n => .ok (.int n)
    | Option.none => .error .valueError
  | _ => .error .typeError

/-- `BooleanField.convert` (fields.py lines 252-255): ints become `bool(value)`,
everything else raises TypeError. -/
def boolConvert : PyValue → Except PyErr PyValue
  | .bool b => .ok (.bool b)
  | .int n => .ok (.bool (n ≠ 0))
  | _ => .error .typeError

/-- `VarCharField.convert` (fields.py lines 268-280): strings within
`max_length` pass through; longer strings are cut to `max_length` when
`silent_truncate` was chosen and raise ValueError otherwise; non-strings raise
TypeError. -/
def varCharConvert (maxLength : Nat) (silentTruncate : Bool) :
    PyValue → Except PyErr PyValue
  | .str s =>
    if s.length > maxLength then
      if silentTruncate then .ok (.str (s.take maxLength))
      else .error .valueError
    else .ok (.str s)
  | _ => .error .typeError

/-- `NumericField.convert` (fields.py lines 225-232): a Decimal is quantized
under the field's context; ints (and bools) and numeric strings are first
converted by `Decimal(value)` (exactly) and then quantized; a malformed
string raises InvalidOperation from the `Decimal` constructor; anything else
raises TypeError.  Floats do not arise (`PyValue` has no float). -/
def numericConvert (precision scale : Nat) (inexactQuantize : Bool) :
    PyValue → Except PyErr PyValue
  | .dec c e =>
    (decQuantize c e scale precision inexactQuantize).map (fun p => .dec p.1 p.2)
  | .int n =>
    (decQuantize n 0 scale precision inexactQuantize).map (fun p => .dec p.1 p.2)
  | .bool b =>
    (decQuantize (if b then 1 else 0) 0 scale precision inexactQuantize).map
      (fun p => .dec p.1 p.2)
  | .str s =>
    match strToDec? s with
    | some m => (decQuantize m.1 m.2 scale precision inexactQuantize).map
        (fun p => .dec p.1 p.2)
    | Option.none => .error .invalidOperation
  | _ => .error .typeError

/-- The `convert` method of each modelled field class; the base
`SQLField.convert` (used by `TextField`, fields.py lines 60-67) raises
TypeError unconditionally. -/
def FieldType.convert : FieldType → PyValue → Except PyErr PyValue
  | .intF, v => intConvert v
  | .boolF, v => boolConvert v
  | .textF, _ => .error .typeError
  | .varChar m st, v => varCharConvert m st v
  | .numeric p sc _ iq, v => numericConvert p sc iq v

/-- `SQLField.__set__` (fields.py lines 35-48): `None` is stored when the
field is nullable and raises TypeError otherwise; a value matching `py_type`
is stored unchanged; any other value goes through the subclass `convert`
(whose TypeError is re-raised as TypeError and whose other exceptions —
ValueError, decimal signals — propagate).  Returns the value placed in the
instance slot. -/
def fieldSet (ft : FieldType) (nullable : Bool) (v : PyValue) :
    Except PyErr PyValue :=
  match v with
  | .none => if nullable then .ok .none else .error .typeError
  | v => if pyTypeInstance ft v then .ok v else ft.convert v

/-- `SQLField.get_context` (fields.py lines 75-94): with no declared
`context_used` the stored value is returned; with one, a missing dictionary or
a missing key raises ContextRequiredError, and a present key has its value
adopted into the instance through `__set__` and returned.  The result pairs
the returned value with the new slot value. -/
def fieldGetContext (ft : FieldType) (nullable : Bool)
    (contextUsed : Option String) (stored : PyValue) (ctx : Option Ctx) :
    Except PyErr (PyValue × PyValue) :=
  match contextUsed with
  | Option.none => .ok (stored, stored)
  | some key =>
    match ctx with
    | Option.none => .error .contextRequired
    | some c =>
      match ctxLookup c key with
      | some v => (fieldSet ft nullable v).map (fun w => (v, w))
      | Option.none => .error .contextRequired

/-- `RowEnumIntField.get_context` (fields.py lines 182-194): with the key
present in the dictionary, the dictionary entry is incremented in place, the
new value is stored in the instance slot (directly, bypassing `__set__`) and
returned; with the key absent, the starting number is written to both the
dictionary and the slot and returned; with no dictionary at all,
ContextRequiredError.  The result triples the returned value, the new slot
value and the updated dictionary. -/
def rowEnumGetContext (contextUsed : String) (startingNumber : Int)
    (ctx : Option Ctx) : Except PyErr (PyValue × PyValue × Ctx) :=
  match ctx with
  | Option.none => .error .contextRequired
  | some c =>
    match ctxLookup c contextUsed with
    | some v => do
      let v' ← pyAdd1 v
      .ok (v', v', ctxSet c contextUsed v')
    | Option.none =>
      .ok (.int startingNumber, .int startingNumber,
           ctxSet c contextUsed (.int startingNumber))

/-! ### Dialects (dialects.py) -/

/-- Python `str(Decimal(...))` for a coefficient/exponent pair, following the
to-scientific-string algorithm of `_pydecimal.Decimal.__str__`: plain notation
when the exponent is non-positive and the adjusted exponent is at least -6,
scientific notation otherwise. -/
def decToString (c e : Int) : String :=
  let sign := if c < 0 then "-" else ""
  let digits := toString c.natAbs
  let leftdigits : Int := e + (digits.length : Int)
  if e ≤ 0 ∧ leftdigits > -6 then
    if e = 0 then sign ++ digits
    else if leftdigits > 0 then
      sign ++ digits.take leftdigits.toNat ++ "." ++ digits.drop leftdigits.toNat
    else
      sign ++ "0." ++ String.mk (List.replicate (-leftdigits).toNat '0') ++ digits
  else
    let ipart := digits.take 1
    let fpart := if digits.length > 1 then "." ++ digits.drop 1 else ""
    let ev := leftdigits - 1
    sign ++ ipart ++ fpart ++ "E" ++ (if ev < 0 then "-" else "+") ++ toString ev.natAbs

/-- A dialect, as the SQL-building methods consume one: the parameter
placeholder glyph, the `sql_repr` value coercion, and the transaction control
statements its `begin_transaction` context manager executes on the cursor. -/
structure Dialect where
  placeholder : String
  sqlRepr : PyValue → PyValue
  beginTransactionSql : String
  commitSql : String
  rollbackSql : String

/-- `sqliteDialect.sql_repr` (dialects.py lines 202-221) restricted to the
modelled value universe: bools become the ints 1/0, ints, strings and `None`
pass through, and Decimals become `str(value)`. -/
def sqliteSqlRepr : PyValue → PyValue
  | .bool b => .int (if b then 1 else 0)
  | .dec c e => .str (decToString c e)
  | v => v

/-- Modelled from the spec: the `placeholder` attribute of the default
(sqlite) dialect.  The SQL builders in records.py/tables.py/queries.py read
`dialect.placeholder`, but this snapshot's dialects.py revision does not
define the attribute (the postgresql dialect defines its own as `%s`); per the
spec's dialect description the sqlite dialect supplies the qmark placeholder
of the sqlite3 adaptor. -/
def sqlitePlaceholder : String := "?"

/-- The default dialect (`dialects.DefaultDialect = sqliteDialect`), with the
transaction control statements its `begin_transaction`/`TransactionContext`
issue (dialects.py lines 58-81 and 223-243). -/
def sqliteDialect : Dialect where
  placeholder := sqlitePlaceholder
  sqlRepr := sqliteSqlRepr
  beginTransactionSql := "BEGIN TRANSACTION;"
  commitSql := "COMMIT;"
  rollbackSql := "ROLLBACK;"

/-! ### Fields attached to records and transactions -/

/-- Which `get_context`/`refresh`/`update` behaviour a field instance has:
`plain` covers every modelled class that keeps the base `SQLField`
implementations (with `hasQuery` recording whether a `query` was supplied to
drive `refresh`), `rowEnum` is `RowEnumIntField` (which overrides
`get_context`), and `seqLinked` is `sequences.SequenceIntField` (which
overrides `update` to draw `nextval` from its sequence). -/
inductive FieldKind where
  | plain (hasQuery : Bool)
  | rowEnum (start : Int)
  | seqLinked
  deriving DecidableEq, Repr

/-- One field as attached to a record or transaction class, together with the
per-instance slot value: the attribute name, the SQL column name (defaulted to
the attribute name by `__set_name__` when not supplied), the value-handling
class, nullability, the declared `context_used` key, the behaviour kind and
the current slot value. -/
structure Field where
  name : String
  sqlName : String
  ftype : FieldType
  nullable : Bool
  contextUsed : Option String
  kind : FieldKind
  value : PyValue
  deriving DecidableEq, Repr

/-- The `get_context` dispatch for a field instance handed a context
dictionary: `RowEnumIntField` overrides the base method, every other modelled
class inherits `SQLField.get_context`.  Returns the value, the field with its
updated slot, and the updated dictionary (the base method never changes the
dictionary).  A `RowEnumIntField` constructed without `context_used` would
write a `None`-keyed entry into the (string-keyed) dictionary; that entry is
invisible to every string lookup modelled here, so the model stores and
returns the starting number without a dictionary write in that degenerate
case. -/
def Field.getContextD (f : Field) (ctx : Ctx) :
    Except PyErr (PyValue × Field × Ctx) :=
  match f.kind with
  | .rowEnum start =>
    match f.contextUsed with
    | some k =>
      (rowEnumGetContext k start (some ctx)).map
        (fun r => (r.1, {f with value := r.2.1}, r.2.2))
    | Option.none => .ok (.int start, {f with value := .int start}, ctx)
  | _ =>
    (fieldGetContext f.ftype f.nullable f.contextUsed f.value (some ctx)).map
      (fun r => (r.1, {f with value := r.2}, ctx))

/-- The `get_context` dispatch with a possibly-absent dictionary (the
`context=None` defaults of the record methods): without a dictionary the base
method returns the stored value for a field with no `context_used` and raises
ContextRequiredError otherwise, as does `RowEnumIntField`. -/
def Field.getContext (f : Field) (ctx : Option Ctx) :
    Except PyErr (PyValue × Field × Option Ctx) :=
  match ctx with
  | some c => (f.getContextD c).map (fun r => (r.1, r.2.1, some r.2.2))
  | Option.none =>
    match f.kind with
    | .rowEnum _ => .error .contextRequired
    | _ =>
      (fieldGetContext f.ftype f.nullable f.contextUsed f.value Option.none).map
        (fun r => (r.1, {f with value := r.2}, Option.none))

/-! ### Tables (tables.py) -/

/-- An `SQLTable` subclass and instance: the table name, the fields in
declaration order with their instance values, and the primary-key constraint's
column names when one was declared.  (The snapshot's tables carry no schema,
so `_qualified_table_name` is the table name.) -/
structure Table where
  tableName : String
  fields : List Field
  primaryKey : Option (List String)
  deriving DecidableEq, Repr

/-- `self._fields[name]` on a table. -/
def Table.lookupField (t : Table) (n : String) : Option Field :=
  t.fields.find? (fun f => f.name == n)

/-- Writing a mutated field instance back over the entry of the same name. -/
def replaceField : List Field → Field → List Field
  | [], _ => []
  | g :: rest, f => if g.name == f.name then f :: rest else g :: replaceField rest f

/-- `SQLRecord.column_names_sql` (records.py lines 253-257). -/
def columnNamesSql (t : Table) : String :=
  String.intercalate ", " (t.fields.map (fun f => f.sqlName))

/-- `SQLTable._insert_sql_command` (tables.py lines 162-177): the parametrised
INSERT statement, one placeholder per field. -/
def insertSqlCommand (d : Dialect) (t : Table) : String :=
  "INSERT INTO " ++ t.tableName ++ " (" ++ columnNamesSql t ++ ") VALUES (" ++
    String.intercalate ", " (t.fields.map (fun _ => d.placeholder)) ++ ");"

/-- Truthiness of the `context` parameter (`if context:`): a supplied,
non-empty dictionary. -/
def ctxTruthy : Option Ctx → Bool
  | Option.none => false
  | some c => !c.isEmpty

/-- `SQLTable._pk_items` (tables.py lines 117-137): walks the primary-key
column names; each field's value is resolved through `get_context` when a
truthy context dictionary was supplied and through `get` otherwise, and a
falsy resolved value — not only `None`, despite the message text — raises
UnconstrainedWhereError.  Returns the SQL column names, the values, and the
updated table and dictionary. -/
def pkItems (t : Table) (pkcols : List String) (ctx : Option Ctx) :
    Except PyErr (List String × List PyValue × Table × Option Ctx) :=
  match pkcols with
  | [] => .ok ([], [], t, ctx)
  | n :: rest =>
    match t.lookupField n with
    | Option.none => .error .keyError
    | some f => do
      let (v, f', ctx') ←
        if ctxTruthy ctx then f.getContext ctx else .ok (f.value, f, ctx)
      if v.truthy then do
        let t' := {t with fields := replaceField t.fields f'}
        let (ns, vs, t'', ctx'') ← pkItems t' rest ctx'
        .ok (f.sqlName :: ns, v :: vs, t'', ctx'')
      else .error .unconstrainedWhere

/-- The non-primary-key half of `SQLTable._update_sql` (tables.py lines
207-216): every field not among the primary-key columns is resolved (through
`get_context` when a truthy dictionary was supplied, `get` otherwise) and its
`sql_repr` value collected. -/
def resolveNonPk (d : Dialect) (fields : List Field) (pkcols : List String)
    (ctx : Option Ctx) :
    Except PyErr (List String × List PyValue × List Field × Option Ctx) :=
  match fields with
  | [] => .ok ([], [], [], ctx)
  | f :: rest =>
    if pkcols.contains f.name then do
      let (ns, vs, fs, c) ← resolveNonPk d rest pkcols ctx
      .ok (ns, vs, f :: fs, c)
    else do
      let (v, f', ctx') ←
        if ctxTruthy ctx then f.getContext ctx else .ok (f.value, f, ctx)
      let (ns, vs, fs, c) ← resolveNonPk d rest pkcols ctx'
      .ok (f.sqlName :: ns, d.sqlRepr v :: vs, f' :: fs, c)

/-- `SQLTable._update_sql` (tables.py lines 188-225): without a primary key,
UnconstrainedWhereError; otherwise the primary-key items are resolved first,
then the remaining fields, and the statement updates the non-key columns with
a WHERE clause over the key columns, the parameter list being the update
values followed by the `sql_repr` of the key values. -/
def updateSql (d : Dialect) (t : Table) (ctx : Option Ctx) :
    Except PyErr ((String × List PyValue) × Table × Option Ctx) :=
  match t.primaryKey with
  | Option.none => .error .unconstrainedWhere
  | some pkcols => do
    let (pkNames, pkVals, t1, ctx1) ← pkItems t pkcols ctx
    let (updNames, updVals, fs, ctx2) ← resolveNonPk d t1.fields pkcols ctx1
    let sql := "UPDATE " ++ t.tableName ++ " SET " ++
      String.intercalate ", " (updNames.map (fun n => n ++ " = " ++ d.placeholder)) ++
      " WHERE " ++
      String.intercalate " AND " (pkNames.map (fun n => n ++ " = " ++ d.placeholder)) ++
      ";"
    .ok ((sql, updVals ++ pkVals.map d.sqlRepr), {t1 with fields := fs}, ctx2)

/-- `SQLTable._delete_sql` (tables.py lines 227-250): without a primary key,
UnconstrainedWhereError; otherwise a DELETE scoped by the key columns. -/
def deleteSql (d : Dialect) (t : Table) (ctx : Option Ctx) :
    Except PyErr ((String × List PyValue) × Table × Option Ctx) :=
  match t.primaryKey with
  | Option.none => .error .unconstrainedWhere
  | some pkcols => do
    let (pkNames, pkVals, t1, ctx1) ← pkItems t pkcols ctx
    let sql := "DELETE FROM " ++ t.tableName ++ " WHERE " ++
      String.intercalate " AND " (pkNames.map (fun n => n ++ " = " ++ d.placeholder)) ++
      ";"
    .ok ((sql, pkVals.map d.sqlRepr), t1, ctx1)

/-- `SQLTable._pk_select_sql` (tables.py lines 279-300): without a primary
key, UnconstrainedWhereError; otherwise a SELECT of all columns scoped by the
key columns. -/
def pkSelectSql (d : Dialect) (t : Table) (ctx : Option Ctx) :
    Except PyErr ((String × List PyValue) × Table × Option Ctx) :=
  match t.primaryKey with
  | Option.none => .error .unconstrainedWhere
  | some pkcols => do
    let (pkNames, pkVals, t1, ctx1) ← pkItems t pkcols ctx
    let sql := "SELECT " ++ columnNamesSql t ++ " FROM " ++ t.tableName ++ " WHERE " ++
      String.intercalate " AND " (pkNames.map (fun n => n ++ " = " ++ d.placeholder)) ++
      ";"
    .ok ((sql, pkVals.map d.sqlRepr), t1, ctx1)

/-- The column-collection loop of `SQLTable._context_select_sql` (tables.py
lines 320-324): each field whose declared `context_used` key is present in the
dictionary contributes its SQL column name and the `sql_repr` of the
dictionary value.  A field with no `context_used` never matches a
string-keyed dictionary. -/
def contextSelectCols (d : Dialect) (ctx : Ctx) : List Field → List String × List PyValue
  | [] => ([], [])
  | f :: rest =>
    let (ns, vs) := contextSelectCols d ctx rest
    match f.contextUsed with
    | some k =>
      match ctxLookup ctx k with
      | some v => (f.sqlName :: ns, d.sqlRepr v :: vs)
      | Option.none => (ns, vs)
    | Option.none => (ns, vs)

/-- `SQLTable._context_select_sql` (tables.py lines 302-335): a SELECT of all
columns, with a WHERE clause equating the columns of the matched context
fields to placeholders; with no matched column and `allow_unlimited=False`,
UnconstrainedWhereError. -/
def contextSelectSql (d : Dialect) (t : Table) (ctx : Ctx) (allowUnlimited : Bool) :
    Except PyErr (String × List PyValue) :=
  let head := "SELECT " ++ columnNamesSql t ++ " FROM " ++ t.tableName
  let (names, vals) := contextSelectCols d ctx t.fields
  if allowUnlimited = false ∧ names.isEmpty then .error .unconstrainedWhere
  else if names.isEmpty then .ok (head ++ ";", vals)
  else
    .ok (head ++ " WHERE " ++
      String.intercalate " AND " (names.map (fun n => n ++ "=" ++ d.placeholder)) ++
      ";", vals)

/-- `SQLRecord.values_sql_repr` (records.py lines 194-208; the revision of
records.py called by recordlists.py and transactions.py names it
`_values_sql_repr` with the same body): every field is resolved through
`get_context` when a dictionary was supplied (`if context is not None` — even
an empty one) and through `get` otherwise, and the `sql_repr` values are
collected in declaration order. -/
def valuesSqlRepr (d : Dialect) (fields : List Field) (ctx : Option Ctx) :
    Except PyErr (List PyValue × List Field × Option Ctx) :=
  match fields with
  | [] => .ok ([], [], ctx)
  | f :: rest => do
    let (v, f', ctx') ←
      match ctx with
      | Option.none => .ok (f.value, f, (Option.none : Option Ctx))
      | some c => f.getContext (some c)
    let (vs, fs, c) ← valuesSqlRepr d rest ctx'
    .ok (d.sqlRepr v :: vs, f' :: fs, c)

/-- `SQLTable._insert_sql` (tables.py lines 179-186): the parametrised INSERT
command paired with the record's `sql_repr` values. -/
def insertSql (d : Dialect) (t : Table) (ctx : Option Ctx) :
    Except PyErr ((String × List PyValue) × Table × Option Ctx) := do
  let (vs, fs, ctx') ← valuesSqlRepr d t.fields ctx
  .ok ((insertSqlCommand d t, vs), {t with fields := fs}, ctx')

/-! ### Field refresh and update (fields.py lines 96-122, sequences.py lines
144-148)

Values that would come back from the database (a query result, a sequence
`nextval`) are supplied by an oracle function consulted at an incrementing
index; the cursor operations these would perform are not traced, as no claim
concerns them.  `refresh` receives the partially-built context dictionary in
the source but only ever reads it (`SQLQuery._set_context` copies values out
of it), so the model omits the parameter. -/

/-- `SQLField.refresh`: with a bound query, execute it, adopt the
single-value result through `__set__` and return it; without one, return the
stored value.  `RowEnumIntField` and `SequenceIntField` inherit this
implementation (neither is given a query in practice). -/
def Field.refresh (f : Field) (oracle : Nat → PyValue) (n : Nat) :
    Except PyErr (PyValue × Field × Nat) :=
  match f.kind with
  | .plain true => do
    let v := oracle n
    let w ← fieldSet f.ftype f.nullable v
    .ok (v, {f with value := w}, n + 1)
  | _ => .ok (f.value, f, n)

/-- `update`: `SequenceIntField.update` draws `nextval` from its sequence and
stores it directly into the slot; every other modelled class inherits
`SQLField.update`, which is `refresh`. -/
def Field.update (f : Field) (oracle : Nat → PyValue) (n : Nat) :
    Except PyErr (PyValue × Field × Nat) :=
  match f.kind with
  | .seqLinked =>
    let v := oracle n
    .ok (v, {f with value := v}, n + 1)
  | _ => f.refresh oracle n

/-! ### Transactions (transactions.py) -/

/-- One operation issued against the database cursor. -/
inductive CursorOp where
  | execute (sql : String) (params : List PyValue)
  | executeMany (sql : String) (paramSeq : List (List PyValue))
  deriving DecidableEq, Repr

/-- An `SQLRecordList` member of a transaction (an `SQLTransactionField`
wrapping an `SQLRecordList` subclass): the record type's class-level data (for
`_insert_sql_command`), whether that type is an `SQLTable` (the
`hasattr(record_type, '_insert_sql')`-style checks), and the current rows. -/
structure RecordList where
  recordType : Table
  isTableType : Bool
  rows : List Table

/-- An `SQLTransaction` subclass and instance: the class name and declared
version (spec section 6 records versions as strings), whether the isolation
level is MANUAL_TRANSACTIONS (suppressing BEGIN/COMMIT/ROLLBACK), the context
fields, the directly-attached record members in declaration order (`none` for
a plain `SQLRecord` member, which has none of the SQLTable SQL methods), the
record-list members in declaration order, the three pre/post hook results as
functions of the context dictionary they receive, and the `_verify` result.
Hooks may in Python also mutate the transaction; the modelled hooks are pure,
which the claims settled here do not depend on. -/
structure STrans where
  className : String
  version : Option String
  manual : Bool
  ctxFields : List Field
  records : List (Option Table)
  recordlists : List RecordList
  preInsertHook : Ctx → PyValue
  preUpdateHook : Ctx → PyValue
  preDeleteHook : Ctx → PyValue
  verifyResult : PyValue

/-- The `__version__` entry: the declared version, or `None`. -/
def versionValue : Option String → PyValue
  | Option.none => .none
  | some s => .str s

/-- The dictionary every context builder starts from (transactions.py lines
253, 265, 279): the class name under `__name__` and the declared version
under `__version__`. -/
def initialContext (className : String) (version : Option String) : Ctx :=
  [("__name__", .str className), ("__version__", versionValue version)]

/-- The per-field loop of `SQLTransaction._get_context` (transactions.py
lines 254-257): each context field's `get_context` is called against the
dictionary built so far, and a truthy result is entered under the field's
attribute name. -/
def getContextFold : List Field → Ctx → Except PyErr (Ctx × List Field)
  | [], ctx => .ok (ctx, [])
  | f :: rest, ctx => do
    let (tmp, f', ctx') ← f.getContextD ctx
    let ctx1 := if tmp.truthy then ctxSet ctx' f.name tmp else ctx'
    let (cf, fs) ← getContextFold rest ctx1
    .ok (cf, f' :: fs)

/-- `SQLTransaction._get_context` (transactions.py lines 248-258).  Returns
the dictionary and the transaction with any slot writes the `get_context`
calls performed. -/
def getContextMap (tx : STrans) : Except PyErr (Ctx × STrans) :=
  (getContextFold tx.ctxFields (initialContext tx.className tx.version)).map
    (fun r => (r.1, {tx with ctxFields := r.2}))

/-- The per-field loop of `SQLTransaction._get_refreshed_context`
(transactions.py lines 267-270): as `_get_context`, through `refresh`. -/
def refreshedContextFold (oracle : Nat → PyValue) :
    List Field → Ctx → Nat → Except PyErr (Ctx × List Field × Nat)
  | [], ctx, n => .ok (ctx, [], n)
  | f :: rest, ctx, n => do
    let (tmp, f', n') ← f.refresh oracle n
    let ctx1 := if tmp.truthy then ctxSet ctx f.name tmp else ctx
    let (cf, fs, n'') ← refreshedContextFold oracle rest ctx1 n'
    .ok (cf, f' :: fs, n'')

/-- `SQLTransaction._get_refreshed_context` (transactions.py lines 260-271). -/
def getRefreshedContext (tx : STrans) (oracle : Nat → PyValue) :
    Except PyErr (Ctx × STrans) :=
  (refreshedContextFold oracle tx.ctxFields
      (initialContext tx.className tx.version) 0).map
    (fun r => (r.1, {tx with ctxFields := r.2.1}))

/-- The per-field loop of `SQLTransaction._get_updated_context`
(transactions.py lines 281-284): as `_get_context`, through `update`. -/
def updatedContextFold (oracle : Nat → PyValue) :
    List Field → Ctx → Nat → Except PyErr (Ctx × List Field × Nat)
  | [], ctx, n => .ok (ctx, [], n)
  | f :: rest, ctx, n => do
    let (tmp, f', n') ← f.update oracle n
    let ctx1 := if tmp.truthy then ctxSet ctx f.name tmp else ctx
    let (cf, fs, n'') ← updatedContextFold oracle rest ctx1 n'
    .ok (cf, f' :: fs, n'')

/-- `SQLTransaction._get_updated_context` (transactions.py lines 273-285). -/
def getUpdatedContext (tx : STrans) (oracle : Nat → PyValue) :
    Except PyErr (Ctx × STrans) :=
  (updatedContextFold oracle tx.ctxFields
      (initialContext tx.className tx.version) 0).map
    (fun r => (r.1, {tx with ctxFields := r.2.1}))

/-- The hook-status test used by every operation (for example transactions.py
lines 318-322): `status != True` — Python equality, under which `1 == True` —
raises VerificationError, carrying the status as its message when it is a
string. -/
def hookCheck (status : PyValue) : Except PyErr Unit :=
  if pyEq status (.bool true) then .ok ()
  else
    match status with
    | .str s => .error (.verification (some s))
    | _ => .error (.verification Option.none)

/-- The `_verify` test used by every operation (for example transactions.py
lines 324-325): `if not self._verify()` — only a falsy result raises
VerificationError. -/
def verifyCheck (v : PyValue) : Except PyErr Unit :=
  if v.truthy then .ok () else .error (.verification Option.none)

/-- The signature shared by the per-record SQL builders the operation loops
call (`_insert_sql`, `_update_sql`, `_delete_sql` partially applied to the
dialect). -/
abbrev RowSqlFn :=
  Table → Option Ctx → Except PyErr ((String × List PyValue) × Table × Option Ctx)

/-- A loop `for record in recordlist: cursor.execute(*sqlFn(record, context))`
over rows, collecting the trace, stopping at the first raised error. -/
def rowOpFold (sqlFn : RowSqlFn) :
    List Table → Option Ctx → List CursorOp × Option Ctx × Option PyErr
  | [], ctx => ([], ctx, Option.none)
  | t :: rest, ctx =>
    match sqlFn t ctx with
    | .error e => ([], ctx, some e)
    | .ok ((sql, vals), _, ctx') =>
      let (ops, c, e) := rowOpFold sqlFn rest ctx'
      (CursorOp.execute sql vals :: ops, c, e)

/-- A loop over the directly-attached record members, skipping members whose
type lacks the SQL method (`hasattr(record, ...)`). -/
def memberOpFold (sqlFn : RowSqlFn) :
    List (Option Table) → Option Ctx → List CursorOp × Option Ctx × Option PyErr
  | [], ctx => ([], ctx, Option.none)
  | Option.none :: rest, ctx => memberOpFold sqlFn rest ctx
  | some t :: rest, ctx =>
    match sqlFn t ctx with
    | .error e => ([], ctx, some e)
    | .ok ((sql, vals), _, ctx') =>
      let (ops, c, e) := memberOpFold sqlFn rest ctx'
      (CursorOp.execute sql vals :: ops, c, e)

/-- A loop over record-list members issuing one execute per row, skipping
lists whose record type lacks the SQL method. -/
def listOpFold (sqlFn : RowSqlFn) :
    List RecordList → Option Ctx → List CursorOp × Option Ctx × Option PyErr
  | [], ctx => ([], ctx, Option.none)
  | rl :: rest, ctx =>
    if rl.isTableType then
      match rowOpFold sqlFn rl.rows ctx with
      | (ops1, c1, some e) => (ops1, c1, some e)
      | (ops1, c1, Option.none) =>
        let (ops2, c2, e2) := listOpFold sqlFn rest c1
        (ops1 ++ ops2, c2, e2)
    else listOpFold sqlFn rest ctx

/-- `SQLRecordList._values_sql_repr` (recordlists.py lines 172-179): the
`values_sql_repr` rows of each member record in order, threading the shared
dictionary. -/
def listValuesSqlRepr (d : Dialect) :
    List Table → Option Ctx → Except PyErr (List (List PyValue) × Option Ctx)
  | [], ctx => .ok ([], ctx)
  | t :: rest, ctx => do
    let (vs, _, ctx') ← valuesSqlRepr d t.fields ctx
    let (vss, c) ← listValuesSqlRepr d rest ctx'
    .ok (vs :: vss, c)

/-- The INSERT loop over directly-attached records (transactions.py lines
327-330): one execute per member that has `_insert_sql`. -/
def insertRecordsFold (d : Dialect) :
    List (Option Table) → Option Ctx → List CursorOp × Option Ctx × Option PyErr :=
  memberOpFold (insertSql d)

/-- The INSERT loop over record-list members (transactions.py lines 332-336):
one batched executemany per list whose record type has `_insert_sql`, from
`_insert_sql_command` and `_values_sql_repr`. -/
def insertListsFold (d : Dialect) :
    List RecordList → Option Ctx → List CursorOp × Option Ctx × Option PyErr
  | [], ctx => ([], ctx, Option.none)
  | rl :: rest, ctx =>
    if rl.isTableType then
      match listValuesSqlRepr d rl.rows ctx with
      | .error e => ([], ctx, some e)
      | .ok (vss, ctx') =>
        let (ops, c, e) := insertListsFold d rest ctx'
        (CursorOp.executeMany (insertSqlCommand d rl.recordType) vss :: ops, c, e)
    else insertListsFold d rest ctx

/-- The `with dialect.begin_transaction(cursor, isolation_level)` wrapper
(dialects.py lines 58-81, 223-233): outside MANUAL_TRANSACTIONS, a BEGIN is
executed first and a COMMIT (on success) or ROLLBACK (on a raised error)
last. -/
def withTransaction (d : Dialect) (manual : Bool)
    (body : List CursorOp × Option PyErr) : List CursorOp × Option PyErr :=
  let beginOps := if manual then [] else [CursorOp.execute d.beginTransactionSql []]
  match body with
  | (ops, Option.none) =>
    (beginOps ++ ops ++ (if manual then [] else [CursorOp.execute d.commitSql []]),
     Option.none)
  | (ops, some e) =>
    (beginOps ++ ops ++ (if manual then [] else [CursorOp.execute d.rollbackSql []]),
     some e)

/-- The body of `SQLTransaction._insert_existing` (transactions.py lines
316-336): build the plain context, run the pre-insert hook and the `_verify`
test, then insert the directly-attached records in declaration order and the
record lists in declaration order. -/
def insertExistingBody (d : Dialect) (tx : STrans) : List CursorOp × Option PyErr :=
  match getContextMap tx with
  | .error e => ([], some e)
  | .ok (context, _) =>
    match hookCheck (tx.preInsertHook context) with
    | .error e => ([], some e)
    | .ok _ =>
      match verifyCheck tx.verifyResult with
      | .error e => ([], some e)
      | .ok _ =>
        match insertRecordsFold d tx.records (some context) with
        | (ops1, _, some e) => (ops1, some e)
        | (ops1, c1, Option.none) =>
          let (ops2, _, e2) := insertListsFold d tx.recordlists c1
          (ops1 ++ ops2, e2)

/-- `SQLTransaction._insert_existing` (transactions.py lines 308-336),
returning the trace of cursor operations and the raised error, if any. -/
def transInsertExisting (d : Dialect) (tx : STrans) : List CursorOp × Option PyErr :=
  withTransaction d tx.manual (insertExistingBody d tx)

/-- The body of `SQLTransaction._update` (transactions.py lines 376-397):
plain context, pre-update hook, `_verify`, then UPDATE the rows of each
record-list member in reverse declaration order and each directly-attached
record member in reverse declaration order. -/
def updateBody (d : Dialect) (tx : STrans) : List CursorOp × Option PyErr :=
  match getContextMap tx with
  | .error e => ([], some e)
  | .ok (context, _) =>
    match hookCheck (tx.preUpdateHook context) with
    | .error e => ([], some e)
    | .ok _ =>
      match verifyCheck tx.verifyResult with
      | .error e => ([], some e)
      | .ok _ =>
        match listOpFold (updateSql d) tx.recordlists.reverse (some context) with
        | (ops1, _, some e) => (ops1, some e)
        | (ops1, c1, Option.none) =>
          let (ops2, _, e2) := memberOpFold (updateSql d) tx.records.reverse c1
          (ops1 ++ ops2, e2)

/-- `SQLTransaction._update` (transactions.py lines 369-397). -/
def transUpdate (d : Dialect) (tx : STrans) : List CursorOp × Option PyErr :=
  withTransaction d tx.manual (updateBody d tx)

/-- The body of `SQLTransaction._delete` (transactions.py lines 407-432):
plain context, pre-delete hook, `_verify`, then DELETE by primary key in the
same reverse-order traversal as `_update`. -/
def deleteBody (d : Dialect) (tx : STrans) : List CursorOp × Option PyErr :=
  match getContextMap tx with
  | .error e => ([], some e)
  | .ok (context, _) =>
    match hookCheck (tx.preDeleteHook context) with
    | .error e => ([], some e)
    | .ok _ =>
      match verifyCheck tx.verifyResult with
      | .error e => ([], some e)
      | .ok _ =>
        match listOpFold (deleteSql d) tx.recordlists.reverse (some context) with
        | (ops1, _, some e) => (ops1, some e)
        | (ops1, c1, Option.none) =>
          let (ops2, _, e2) := memberOpFold (deleteSql d) tx.records.reverse c1
          (ops1 ++ ops2, e2)

/-- `SQLTransaction._delete` (transactions.py lines 399-432). -/
def transDelete (d : Dialect) (tx : STrans) : List CursorOp × Option PyErr :=
  withTransaction d tx.manual (deleteBody d tx)

/-! ### Statement vocabulary

Definitions used to state properties of the embedded functions: projections of
traces, the static (value-independent) SQL texts the builders emit, and
sample tables and transactions serving as concrete inputs. -/

/-- The SQL text of a cursor operation. -/
def CursorOp.sqlText : CursorOp → String
  | .execute s _ => s
  | .executeMany s _ => s

/-- A field with its slot value erased: the static, class-level data. -/
def eraseValue (f : Field) : Field := {f with value := .none}

/-- Whether a field is a `RowEnumIntField`. -/
def isRowEnum : FieldKind → Bool
  | .rowEnum _ => true
  | _ => false

/-- A context field that neither declares a context key nor is an enumerator:
its `get_context` reads the stored value and changes nothing. -/
def plainNoKey (f : Field) : Bool :=
  f.contextUsed.isNone && !(isRowEnum f.kind)

/-- Repeated `RowEnumIntField.get_context` calls on one field instance against
one (threaded) context dictionary: the list of yielded values, the final slot
value and the final dictionary. -/
def enumCalls (k : String) (start : Int) :
    PyValue → Ctx → Nat → Except PyErr (List PyValue × PyValue × Ctx)
  | stored, ctx, 0 => .ok ([], stored, ctx)
  | _, ctx, n + 1 => do
    let (v, w, c) ← rowEnumGetContext k start (some ctx)
    let (vs, w', c') ← enumCalls k start w c n
    .ok (v :: vs, w', c')

/-- Whether a field's declared context key is present in a context
dictionary. -/
def usesCtx (ctx : Ctx) (f : Field) : Bool :=
  match f.contextUsed with
  | some k => ctxMem ctx k
  | Option.none => false

/-- The fields of a table whose declared context key is present in a context
dictionary — the fields `_context_select_sql` builds its WHERE clause from. -/
def matchedFields (t : Table) (ctx : Ctx) : List Field :=
  t.fields.filter (usesCtx ctx)

/-- The dictionary value a matched context field contributes. -/
def ctxValueOf (ctx : Ctx) (f : Field) : PyValue :=
  match f.contextUsed with
  | some k => (ctxLookup ctx k).getD .none
  | Option.none => .none

/-- The SQL column names of a table's primary-key columns, in constraint
order. -/
def pkSqlNames (t : Table) (pkcols : List String) : List String :=
  pkcols.map (fun n => ((t.lookupField n).map Field.sqlName).getD n)

/-- The SQL column names of the fields outside the primary-key columns, in
declaration order. -/
def nonPkSqlNames (fs : List Field) (pkcols : List String) : List String :=
  (fs.filter (fun f => !(pkcols.contains f.name))).map Field.sqlName

/-- The statement text `_update_sql` emits for a table — independent of the
field values and of the context dictionary. -/
def updateSqlText (d : Dialect) (t : Table) : String :=
  match t.primaryKey with
  | Option.none => ""
  | some pkcols =>
    "UPDATE " ++ t.tableName ++ " SET " ++
      String.intercalate ", "
        ((nonPkSqlNames t.fields pkcols).map (fun n => n ++ " = " ++ d.placeholder)) ++
      " WHERE " ++
      String.intercalate " AND "
        ((pkSqlNames t pkcols).map (fun n => n ++ " = " ++ d.placeholder)) ++
      ";"

/-- The statement text `_delete_sql` emits for a table. -/
def deleteSqlText (d : Dialect) (t : Table) : String :=
  match t.primaryKey with
  | Option.none => ""
  | some pkcols =>
    "DELETE FROM " ++ t.tableName ++ " WHERE " ++
      String.intercalate " AND "
        ((pkSqlNames t pkcols).map (fun n => n ++ " = " ++ d.placeholder)) ++
      ";"

/-- Whether a claimed value is valid for a field, in the sense of the spec's
round-trip property (section 8): a value of the field's Python type; for a
`VarCharField`, a string within `max_length`; for a `NumericField`, a Decimal
already exactly representable at the declared scale and precision (anything
else is either rejected or — only under an explicit opt-in — truncated). -/
def validValue : FieldType → PyValue → Bool
  | .intF, v => pyTypeInstance .intF v
  | .boolF, v => pyTypeInstance .boolF v
  | .textF, v => pyTypeInstance .textF v
  | .varChar m _, .str s => s.length ≤ m
  | .numeric p sc _ _, .dec c e =>
    (-(sc : Int) ≤ e) && (digitCount (c * (10 : Int) ^ (e + sc).toNat).natAbs ≤ p)
  | _, _ => false

/-! ### Sample tables and transactions used as concrete inputs -/

/-- The list s, s+1, ..., s+n-1 of consecutive integer values. -/
def consecInts (s : Int) : Nat → List PyValue
  | 0 => []
  | n + 1 => .int s :: consecInts (s + 1) n

/-- A plain integer field fixture. -/
def mkIntField (nm : String) (cu : Option String) (v : PyValue) : Field :=
  { name := nm, sqlName := nm, ftype := .intF, nullable := true,
    contextUsed := cu, kind := .plain false, value := v }

/-- A `RowEnumIntField` fixture. -/
def mkEnumField (nm k : String) (start : Int) : Field :=
  { name := nm, sqlName := nm, ftype := .intF, nullable := true,
    contextUsed := some k, kind := .rowEnum start, value := .none }

/-- A detail-row table in the shape of the accounting example: a transaction
identifier filled from context key tid, a per-row enumerator on context key
row_id, and an amount; primary key (trans_id, row_id). -/
def journalRow (tid amt : PyValue) : Table :=
  { tableName := "journal_row",
    fields := [mkIntField "trans_id" (some "tid") tid,
               mkEnumField "row_id" "row_id" 1,
               mkIntField "amount" Option.none amt],
    primaryKey := some ["trans_id", "row_id"] }

/-- A single-column-key header table fixture. -/
def headerRow (nm : String) (tid amt : PyValue) : Table :=
  { tableName := nm,
    fields := [mkIntField "trans_id" Option.none tid,
               mkIntField "amount" Option.none amt],
    primaryKey := some ["trans_id"] }

/-- A table keyed by a text column, for exercising primary-key resolution on
string values. -/
def codeRow (code : PyValue) : Table :=
  { tableName := "code_row",
    fields := [{ name := "code", sqlName := "code", ftype := .textF, nullable := true,
                 contextUsed := Option.none, kind := .plain false, value := code },
               mkIntField "amount" Option.none (.int 1)],
    primaryKey := some ["code"] }

/-- A two-row accounting transaction whose `_verify` returns the non-empty
string "unbalanced": one context field tid = 7 and one record list of two
journal rows. -/
def unbalancedTrans : STrans :=
  { className := "AccountingTrans", version := some "1.0", manual := false,
    ctxFields := [mkIntField "tid" Option.none (.int 7)],
    records := [],
    recordlists := [{ recordType := journalRow .none .none, isTableType := true,
                      rows := [journalRow .none (.int 5), journalRow .none (.int 6)] }],
    preInsertHook := fun _ => .bool true,
    preUpdateHook := fun _ => .bool true,
    preDeleteHook := fun _ => .bool true,
    verifyResult := .str "unbalanced" }

/-- A transaction with a single plain context field n storing the integer 0 —
a non-null, falsy value. -/
def zeroFieldTrans : STrans :=
  { className := "T", version := Option.none, manual := false,
    ctxFields := [mkIntField "n" Option.none (.int 0)],
    records := [], recordlists := [],
    preInsertHook := fun _ => .bool true,
    preUpdateHook := fun _ => .bool true,
    preDeleteHook := fun _ => .bool true,
    verifyResult := .bool true }

/-- A transaction with plain context fields holding a truthy, a zero and an
empty-string value. -/
def mixedFieldTrans : STrans :=
  { className := "Mixed", version := some "2", manual := false,
    ctxFields := [mkIntField "a" Option.none (.int 5),
                  mkIntField "b" Option.none (.int 0),
                  { name := "c", sqlName := "c", ftype := .textF, nullable := true,
                    contextUsed := Option.none, kind := .plain false, value := .str "" }],
    records := [], recordlists := [],
    preInsertHook := fun _ => .bool true,
    preUpdateHook := fun _ => .bool true,
    preDeleteHook := fun _ => .bool true,
    verifyResult := .bool true }

/-- A transaction with two header records and two record lists, all hooks
passing, for exercising the update/delete traversal order. -/
def orderTrans : STrans :=
  { className := "Order", version := Option.none, manual := false,
    ctxFields := [],
    records := [some (headerRow "hdr_one" (.int 1) (.int 0)),
                some (headerRow "hdr_two" (.int 2) (.int 0))],
    recordlists := [{ recordType := headerRow "lines_one" .none .none, isTableType := true,
                      rows := [headerRow "lines_one" (.int 3) (.int 7),
                               headerRow "lines_one" (.int 4) (.int 8)] },
                    { recordType := headerRow "lines_two" .none .none, isTableType := true,
                      rows := [headerRow "lines_two" (.int 5) (.int 9)] }],
    preInsertHook := fun _ => .bool true,
    preUpdateHook := fun _ => .bool true,
    preDeleteHook := fun _ => .bool true,
    verifyResult := .bool true }

/-! ## Theorems -/

/-! ### Context-dictionary lemmas -/

theorem ctxLookup_ctxSet_self (ctx : Ctx) (k : String) (v : PyValue) :
    ctxLookup (ctxSet ctx k v) k = some v := by
  induction ctx with
  | nil => simp [ctxSet, ctxLookup]
  | cons p rest ih =>
    by_cases h : p.1 == k
    · simp [ctxSet, h, ctxLookup]
    · simp [ctxSet, h, ctxLookup, ih]

theorem ctxLookup_ctxSet_other (ctx : Ctx) (k k' : String) (v : PyValue)
    (h : k ≠ k') : ctxLookup (ctxSet ctx k v) k' = ctxLookup ctx k' := by
  induction ctx with
  | nil => simp [ctxSet, ctxLookup, h]
  | cons p rest ih =>
    by_cases hp : p.1 == k
    · have hne : ¬ (k == k') := by simpa using h
      simp only [ctxSet, hp, if_pos rfl, ctxLookup]
      have hpk : p.1 = k := by simpa using hp
      simp [hpk, hne]
    · simp [ctxSet, hp, ctxLookup, ih]

theorem ctxSet_fresh (ctx : Ctx) (k : String) (v : PyValue)
    (h : ctxLookup ctx k = Option.none) : ctxSet ctx k v = ctx ++ [(k, v)] := by
  induction ctx with
  | nil => simp [ctxSet]
  | cons p rest ih =>
    simp only [ctxLookup] at h
    by_cases hp : p.1 == k
    · simp [hp] at h
    · simp only [ctxSet, hp, Bool.false_eq_true, if_false, List.cons_append,
        List.cons.injEq, true_and]
      exact ih (by simpa [hp] using h)

theorem ctxSet_ctxSet_self (ctx : Ctx) (k : String) (v w : PyValue) :
    ctxSet (ctxSet ctx k v) k w = ctxSet ctx k w := by
  induction ctx with
  | nil => simp [ctxSet]
  | cons p rest ih =>
    by_cases hp : p.1 == k
    · simp [ctxSet, hp]
    · simp [ctxSet, hp, ih]

theorem ctxLookup_append (c1 c2 : Ctx) (k : String) :
    ctxLookup (c1 ++ c2) k =
      match ctxLookup c1 k with
      | some v => some v
      | Option.none => ctxLookup c2 k := by
  induction c1 with
  | nil => simp [ctxLookup]
  | cons p rest ih =>
    by_cases hp : p.1 == k
    · simp [ctxLookup, hp]
    · simp [ctxLookup, hp, ih]

theorem pyEq_refl (v : PyValue) : pyEq v v = true := by
  cases v with
  | dec c e => simp [pyEq, PyValue.toScaled?, decEqVal]
  | int n => simp [pyEq, PyValue.toScaled?, decEqVal]
  | bool b => simp [pyEq, PyValue.toScaled?, decEqVal]
  | str s => simp [pyEq, PyValue.toScaled?]
  | none => simp [pyEq, PyValue.toScaled?]

/-! ### C7 — NumericField quantization -/

/-- C7: a NumericField with precision 6 and scale 2 stores Decimal 1.23
unchanged (under either inexact_quantize setting); setting Decimal 1.234
raises the trapped Inexact signal, unless the field was created with
inexact_quantize=True, in which case 1.23 (half-even) is silently stored; and
setting Decimal 12345.67, whose quantized coefficient needs 7 digits, raises
InvalidOperation regardless of the inexact_quantize setting. -/
theorem numericField_quantization :
    fieldSet (.numeric 6 2 false false) true (.dec 123 (-2)) = .ok (.dec 123 (-2)) ∧
    fieldSet (.numeric 6 2 false true) true (.dec 123 (-2)) = .ok (.dec 123 (-2)) ∧
    fieldSet (.numeric 6 2 false false) true (.dec 1234 (-3)) = .error .inexact ∧
    fieldSet (.numeric 6 2 false true) true (.dec 1234 (-3)) = .ok (.dec 123 (-2)) ∧
    fieldSet (.numeric 6 2 false false) true (.dec 1234567 (-2)) =
      .error .invalidOperation ∧
    fieldSet (.numeric 6 2 false true) true (.dec 1234567 (-2)) =
      .error .invalidOperation :=
  ⟨rfl, rfl, rfl, rfl, rfl, rfl⟩

/-! ### C2 — SQLField.get_context -/

/-- C2 counterexample: for a field declared with context key trans_id and
stored value 5, `get_context` against a map lacking that key raises
ContextRequiredError — it does not fall back to the stored value, refuting
the claim that the stored value is returned whenever the key is not both
declared and present. -/
theorem getContext_missing_key_counterexample :
    fieldGetContext .intF true (some "trans_id") (.int 5)
      (some [("other", .int 1)]) = .error .contextRequired := rfl

/-- C2 amended: `get_context` returns the stored value exactly when no
context key is declared on the field; with a declared key, a missing
dictionary or a missing key raises ContextRequiredError, and a present key
has its value adopted into the instance through the field's setter and
returned — in particular, for context key trans_id over a stored 5 and the
map trans_id = 7, the call returns 7 and the stored value becomes 7. -/
theorem getContext_characterisation (ft : FieldType) (nl : Bool)
    (stored : PyValue) (k : String) (ctx : Ctx) :
    fieldGetContext ft nl Option.none stored (some ctx) = .ok (stored, stored) ∧
    fieldGetContext ft nl Option.none stored Option.none = .ok (stored, stored) ∧
    fieldGetContext ft nl (some k) stored Option.none = .error .contextRequired ∧
    (ctxLookup ctx k = Option.none →
      fieldGetContext ft nl (some k) stored (some ctx) = .error .contextRequired) ∧
    (∀ v w, ctxLookup ctx k = some v → fieldSet ft nl v = .ok w →
      fieldGetContext ft nl (some k) stored (some ctx) = .ok (v, w)) ∧
    fieldGetContext .intF true (some "trans_id") (.int 5)
      (some [("trans_id", .int 7)]) = .ok (.int 7, .int 7) := by
  refine ⟨rfl, rfl, rfl, ?_, ?_, rfl⟩
  · intro h
    simp [fieldGetContext, h]
  · intro v w hv hw
    simp [fieldGetContext, hv, hw, Except.map]

/-- C2 amended, at the claim's own input: context key trans_id, stored 5,
map trans_id = 7. -/
theorem getContext_characterisation_witness :
    fieldGetContext .intF true (some "trans_id") (.int 5)
      (some [("trans_id", .int 7)]) = .ok (.int 7, .int 7) :=
  (getContext_characterisation .intF true (.int 5) "trans_id"
      [("trans_id", .int 7)]).2.2.2.2.1 (.int 7) (.int 7) rfl rfl

/-! ### C4 — RowEnumIntField enumeration -/

theorem consecInts_eq_range (s : Int) (n : Nat) :
    consecInts s n = (List.range n).map (fun i : Nat => PyValue.int (s + (i : Int))) := by
  induction n generalizing s with
  | zero => simp [consecInts]
  | succ n ih =>
    rw [List.range_succ_eq_map, List.map_cons, List.map_map]
    simp only [consecInts, Nat.cast_zero, add_zero, List.cons.injEq, true_and]
    rw [ih (s + 1)]
    apply List.map_congr_left
    intro i _
    simp only [Function.comp_apply, PyValue.int.injEq]
    push_cast
    ring

theorem enumCalls_succ (k : String) (start : Int) (stored : PyValue) (ctx : Ctx)
    (n : Nat) :
    enumCalls k start stored ctx (n + 1) =
      (rowEnumGetContext k start (some ctx)).bind (fun r =>
        (enumCalls k start r.2.1 r.2.2 n).bind (fun r2 =>
          .ok (r.1 :: r2.1, r2.2.1, r2.2.2))) := rfl

theorem rowEnumGetContext_present (k : String) (start : Int) (ctx : Ctx) (m : Int)
    (h : ctxLookup ctx k = some (.int m)) :
    rowEnumGetContext k start (some ctx) =
      .ok (.int (m + 1), .int (m + 1), ctxSet ctx k (.int (m + 1))) := by
  simp only [rowEnumGetContext, h, pyAdd1, bind, Except.bind]

theorem rowEnumGetContext_absent (k : String) (start : Int) (ctx : Ctx)
    (h : ctxLookup ctx k = Option.none) :
    rowEnumGetContext k start (some ctx) =
      .ok (.int start, .int start, ctxSet ctx k (.int start)) := by
  simp only [rowEnumGetContext, h]

theorem enumCalls_present (k : String) (start : Int) (n : Nat) :
    ∀ (m : Int) (stored : PyValue) (ctx : Ctx), ctxLookup ctx k = some (.int m) →
    enumCalls k start stored ctx (n + 1) =
      .ok (consecInts (m + 1) (n + 1), .int (m + 1 + (n : Int)),
           ctxSet ctx k (.int (m + 1 + (n : Int)))) := by
  induction n with
  | zero =>
    intro m stored ctx h
    rw [enumCalls_succ, rowEnumGetContext_present k start ctx m h]
    simp only [Except.bind, enumCalls, consecInts, Except.ok.injEq, Prod.mk.injEq,
      Nat.cast_zero, add_zero, and_self, true_and]
  | succ n ih =>
    intro m stored ctx h
    rw [enumCalls_succ, rowEnumGetContext_present k start ctx m h]
    have step := ih (m + 1) (.int (m + 1)) (ctxSet ctx k (.int (m + 1)))
      (ctxLookup_ctxSet_self ctx k _)
    simp only [Except.bind, step, ctxSet_ctxSet_self, consecInts,
      Except.ok.injEq, Prod.mk.injEq, true_and]
    refine ⟨?_, ?_⟩
    · simp only [PyValue.int.injEq]; push_cast; ring
    · congr 1
      simp only [PyValue.int.injEq]; push_cast; ring

/-- C4: successive `get_context` calls on a RowEnumIntField with declared
starting number s, threaded through one context dictionary not yet holding
the key, yield exactly the strictly increasing consecutive integers s, s+1,
..., s+n, each call writing the yielded value back into the instance slot and
into the dictionary entry; since the only assumption on the dictionary is
that the key is absent, any fresh dictionary restarts the count at s. -/
theorem rowEnum_enumeration (k : String) (start : Int) (stored : PyValue)
    (ctx : Ctx) (h : ctxLookup ctx k = Option.none) (n : Nat) :
    enumCalls k start stored ctx (n + 1) =
      .ok ((List.range (n + 1)).map (fun i : Nat => PyValue.int (start + (i : Int))),
           .int (start + (n : Int)), ctxSet ctx k (.int (start + (n : Int)))) := by
  rw [← consecInts_eq_range]
  cases n with
  | zero =>
    rw [enumCalls_succ, rowEnumGetContext_absent k start ctx h]
    simp only [Except.bind, enumCalls, Except.ok.injEq, Prod.mk.injEq, consecInts,
      Nat.cast_zero, add_zero, and_self, true_and]
  | succ n =>
    rw [enumCalls_succ, rowEnumGetContext_absent k start ctx h]
    have step := enumCalls_present k start n start (.int start)
      (ctxSet ctx k (.int start)) (ctxLookup_ctxSet_self ctx k _)
    simp only [Except.bind, step, ctxSet_ctxSet_self, consecInts,
      Except.ok.injEq, Prod.mk.injEq, true_and]
    refine ⟨?_, ?_⟩
    · simp only [PyValue.int.injEq]; push_cast; ring
    · congr 1
      simp only [PyValue.int.injEq]; push_cast; ring

/-- C4, at a concrete input: starting number 1, three calls against an
initially empty dictionary yield 1, 2, 3, with 3 left in the slot and in the
dictionary. -/
theorem rowEnum_enumeration_witness :
    enumCalls "row_id" 1 PyValue.none [] 3 =
      .ok ([.int 1, .int 2, .int 3], .int 3, [("row_id", .int 3)]) := by
  have h := rowEnum_enumeration "row_id" 1 PyValue.none [] rfl 2
  exact h.trans (by rfl)

/-! ### C6 — _context_select_sql and the unconstrained WHERE guard -/

theorem contextSelectCols_eq (d : Dialect) (ctx : Ctx) (fs : List Field) :
    contextSelectCols d ctx fs =
      ((fs.filter (usesCtx ctx)).map Field.sqlName,
       (fs.filter (usesCtx ctx)).map (fun f => d.sqlRepr (ctxValueOf ctx f))) := by
  induction fs with
  | nil => simp [contextSelectCols]
  | cons f rest ih =>
    cases hcu : f.contextUsed with
    | none => simp [contextSelectCols, usesCtx, hcu, ih]
    | some k =>
      cases hk : ctxLookup ctx k with
      | none => simp [contextSelectCols, usesCtx, hcu, hk, ih, ctxMem]
      | some v => simp [contextSelectCols, usesCtx, hcu, hk, ih, ctxMem, ctxValueOf]

/-- C6: `_context_select_sql` with `allow_unlimited=False` raises
UnconstrainedWhereError when the supplied context map holds none of the
table's declared context keys, rather than emitting a SELECT without a WHERE
clause; and whenever at least one declared key is present, the returned
SELECT's WHERE clause equates exactly the columns of the matched context
fields with placeholders, the parameter list holding exactly the
corresponding map values (in `sql_repr` form), in field declaration order. -/
theorem contextSelect_where (d : Dialect) (t : Table) (ctx : Ctx) :
    ((∀ f ∈ t.fields, ∀ k, f.contextUsed = some k → ctxLookup ctx k = Option.none) →
      contextSelectSql d t ctx false = .error .unconstrainedWhere) ∧
    (∀ au : Bool, matchedFields t ctx ≠ [] →
      contextSelectSql d t ctx au =
        .ok ("SELECT " ++ columnNamesSql t ++ " FROM " ++ t.tableName ++ " WHERE " ++
              String.intercalate " AND "
                ((matchedFields t ctx).map (fun f => f.sqlName ++ "=" ++ d.placeholder)) ++
              ";",
             (matchedFields t ctx).map (fun f => d.sqlRepr (ctxValueOf ctx f)))) := by
  constructor
  · intro hnone
    have hm : t.fields.filter (usesCtx ctx) = [] := by
      rw [List.filter_eq_nil_iff]
      intro f hf
      cases hcu : f.contextUsed with
      | none => simp [usesCtx, hcu]
      | some k =>
        have := hnone f hf k hcu
        simp [usesCtx, hcu, ctxMem, this]
    simp [contextSelectSql, contextSelectCols_eq, hm]
  · intro au hm
    have hie : (List.map Field.sqlName (List.filter (usesCtx ctx) t.fields)).isEmpty
        = false := by
      cases hfe : List.filter (usesCtx ctx) t.fields with
      | nil => exact absurd (by simpa [matchedFields] using hfe) hm
      | cons a l => rfl
    simp only [contextSelectSql, contextSelectCols_eq, hie, Bool.false_eq_true,
      and_false, if_false, matchedFields, List.map_map, Function.comp_def]

/-- C6, at concrete inputs: the journal-row table with an empty context map
raises, and with tid = 3 present selects by exactly the trans_id column with
the value 3. -/
theorem contextSelect_where_witness :
    contextSelectSql sqliteDialect (journalRow .none .none) [] false =
      .error .unconstrainedWhere ∧
    contextSelectSql sqliteDialect (journalRow .none .none) [("tid", .int 3)] false =
      .ok ("SELECT trans_id, row_id, amount FROM journal_row WHERE trans_id=?;",
           [.int 3]) :=
  ⟨(contextSelect_where sqliteDialect (journalRow .none .none) []).1 (by decide),
   ((contextSelect_where sqliteDialect (journalRow .none .none)
        [("tid", .int 3)]).2 false (by decide)).trans (by rfl)⟩

/-! ### C8 — field assignment round trip -/

theorem decEqVal_scaled (c e : Int) (sc : Nat) (h1 : -(sc : Int) ≤ e) :
    decEqVal (c * (10 : Int) ^ (e + sc).toNat) (-(sc : Int)) c e = true := by
  by_cases hge : -(sc : Int) ≥ e
  · have k1 : (e + (sc : Int)).toNat = 0 := by omega
    have k2 : ((-(sc : Int)) - e).toNat = 0 := by omega
    simp only [decEqVal, if_pos hge, k1, k2, pow_zero, mul_one, beq_self_eq_true]
  · have k3 : (e - -(sc : Int)).toNat = (e + sc).toNat := by omega
    simp only [decEqVal, if_neg hge, k3, beq_self_eq_true]

/-- C8: (i) setting a valid value — one of the field's Python type, a string
within a VarCharField's max_length, a Decimal exactly representable at a
NumericField's scale and precision — succeeds and reads back equal (Python
equality, under which rescaling a Decimal preserves equality); (ii) setting
None on a field declared with nullable=False always raises TypeError;
(iii) a VarCharField stores a string either unchanged, or — only with
silent_truncate=True and an overlong input — cut to max_length, so nothing is
silently truncated without the opt-in; (iv) an integer field either stores
the given value unchanged or the successful `int()` conversion of a string,
and otherwise raises. -/
theorem fieldSet_roundtrip :
    (∀ (ft : FieldType) (nl : Bool) (v : PyValue), validValue ft v = true →
      ∃ w, fieldSet ft nl v = .ok w ∧ pyEq w v = true) ∧
    (∀ ft : FieldType, fieldSet ft false .none = .error .typeError) ∧
    (∀ (m : Nat) (st nl : Bool) (s : String) (w : PyValue),
      fieldSet (.varChar m st) nl (.str s) = .ok w →
      w = .str s ∨ (st = true ∧ m < s.length ∧ w = .str (s.take m))) ∧
    (∀ (nl : Bool) (v w : PyValue), fieldSet .intF nl v = .ok w →
      w = v ∨ ∃ (s : String) (n : Int),
        v = .str s ∧ strToInt? s = some n ∧ w = .int n) := by
  refine ⟨?_, ?_, ?_, ?_⟩
  · intro ft nl v hv
    cases ft with
    | intF =>
      cases v <;> simp [validValue, pyTypeInstance] at hv <;>
        exact ⟨_, by simp [fieldSet, pyTypeInstance], pyEq_refl _⟩
    | boolF =>
      cases v <;> simp [validValue, pyTypeInstance] at hv
      exact ⟨_, by simp [fieldSet, pyTypeInstance], pyEq_refl _⟩
    | textF =>
      cases v <;> simp [validValue, pyTypeInstance] at hv
      exact ⟨_, by simp [fieldSet, pyTypeInstance], pyEq_refl _⟩
    | varChar m st =>
      cases v <;> simp [validValue] at hv
      case str s =>
        refine ⟨.str s, ?_, pyEq_refl _⟩
        have : ¬ (s.length > m) := by omega
        simp [fieldSet, pyTypeInstance, FieldType.convert, varCharConvert, this]
    | numeric p sc af iq =>
      cases v <;> simp [validValue] at hv
      case dec c e =>
        obtain ⟨h1, h2⟩ := hv
        refine ⟨.dec (c * (10 : Int) ^ (e + sc).toNat) (-(sc : Int)), ?_, ?_⟩
        · have k3 : (e - -(sc : Int)).toNat = (e + sc).toNat := by omega
          have h2' : ¬ (digitCount (c * (10 : Int) ^ (e + sc).toNat).natAbs > p) := by
            omega
          simp only [fieldSet, pyTypeInstance, FieldType.convert, numericConvert,
            decQuantize, if_pos h1, k3, if_neg h2', Except.map,
            Bool.false_eq_true, if_false]
        · simp only [pyEq, PyValue.toScaled?]
          exact decEqVal_scaled c e sc h1
  · intro ft
    rfl
  · intro m st nl s w h
    by_cases hl : s.length > m
    · by_cases hst : st = true
      · simp only [fieldSet, pyTypeInstance, FieldType.convert, varCharConvert,
          if_pos hl, hst, if_true, Bool.false_eq_true, if_false,
          Except.ok.injEq] at h
        exact Or.inr ⟨hst, hl, h.symm⟩
      · have hst2 : st = false := by simpa using hst
        simp [fieldSet, pyTypeInstance, FieldType.convert, varCharConvert,
          if_pos hl, hst2] at h
    · simp only [fieldSet, pyTypeInstance, FieldType.convert, varCharConvert,
        if_neg hl, Bool.false_eq_true, if_false, Except.ok.injEq] at h
      exact Or.inl h.symm
  · intro nl v w h
    cases v with
    | none =>
      cases nl with
      | true =>
        simp only [fieldSet, if_true, Except.ok.injEq] at h
        exact Or.inl h.symm
      | false => simp [fieldSet] at h
    | int n => simp [fieldSet, pyTypeInstance] at h; exact Or.inl h.symm
    | bool b => simp [fieldSet, pyTypeInstance] at h; exact Or.inl h.symm
    | str s =>
      cases hp : strToInt? s with
      | none => simp [fieldSet, pyTypeInstance, FieldType.convert, intConvert, hp] at h
      | some n =>
        simp only [fieldSet, pyTypeInstance, FieldType.convert, intConvert, hp,
          Bool.false_eq_true, if_false, Except.ok.injEq] at h
        exact Or.inr ⟨s, n, rfl, hp, h.symm⟩
    | dec c e => simp [fieldSet, pyTypeInstance, FieldType.convert, intConvert] at h

/-- C8, at concrete inputs: round trip of the string abc through a
VarCharField of length 5, rejection of None on a non-nullable field, the
opted-in truncation of abcdef to abc, and the int() conversion of the
string 12. -/
theorem fieldSet_roundtrip_witness :
    (∃ w, fieldSet (.varChar 5 false) true (.str "abc") = .ok w ∧
      pyEq w (.str "abc") = true) ∧
    fieldSet .textF false .none = .error .typeError ∧
    ((.str "abc" : PyValue) = .str "abcdef" ∨
      (true = true ∧ 3 < "abcdef".length ∧
        (.str "abc" : PyValue) = .str ("abcdef".take 3))) ∧
    ((.int 12 : PyValue) = .str "12" ∨ ∃ (s : String) (n : Int),
      (.str "12" : PyValue) = .str s ∧ strToInt? s = some n ∧
        (.int 12 : PyValue) = .int n) :=
  ⟨fieldSet_roundtrip.1 (.varChar 5 false) true (.str "abc") (by decide),
   fieldSet_roundtrip.2.1 .textF,
   fieldSet_roundtrip.2.2.1 3 true true "abcdef" (.str "abc") rfl,
   fieldSet_roundtrip.2.2.2 true (.str "12") (.int 12) rfl⟩

/-! ### C9 — falsy primary-key values -/

theorem find?_name_eq (fs : List Field) (n : String) (f : Field)
    (h : fs.find? (fun g => g.name == n) = some f) : f.name = n := by
  have := List.find?_some h
  simpa using this

theorem replaceField_self (fs : List Field) (n : String) (f : Field)
    (h : fs.find? (fun g => g.name == n) = some f) : replaceField fs f = fs := by
  induction fs with
  | nil => simp at h
  | cons g rest ih =>
    by_cases hg : (g.name == n) = true
    · simp only [List.find?, hg] at h
      have hf : f = g := by injection h with h2; exact h2.symm
      subst hf
      simp [replaceField]
    · have hg2 : (g.name == n) = false := by simpa using hg
      simp only [List.find?, hg2] at h
      have hf : f.name = n := find?_name_eq rest n f h
      have hne : (g.name == f.name) = false := by
        rw [hf]
        exact hg2
      simp [replaceField, hne, ih h]

theorem pkItems_none_falsy (t : Table) (pkcols : List String)
    (hall : ∀ n ∈ pkcols, (t.lookupField n).isSome)
    (hfalsy : ∃ n ∈ pkcols, ∃ f, t.lookupField n = some f ∧ f.value.truthy = false) :
    pkItems t pkcols Option.none = .error .unconstrainedWhere := by
  induction pkcols with
  | nil => simp at hfalsy
  | cons n rest ih =>
    obtain ⟨f, hf⟩ : ∃ f, t.lookupField n = some f :=
      Option.isSome_iff_exists.mp (hall n (by simp))
    by_cases hv : f.value.truthy
    · have hrepl : replaceField t.fields f = t.fields :=
        replaceField_self t.fields n f hf
      have heta : Table.mk t.tableName t.fields t.primaryKey = t := rfl
      have hrest : pkItems t rest Option.none = .error .unconstrainedWhere := by
        apply ih
        · intro m hm; exact hall m (List.mem_cons_of_mem _ hm)
        · obtain ⟨m, hm, g, hg, hgf⟩ := hfalsy
          rcases List.mem_cons.mp hm with rfl | hm'
          · rw [hf] at hg
            injection hg with hg2
            subst hg2
            exact absurd hv (by simp [hgf])
          · exact ⟨m, hm', g, hg, hgf⟩
      simp only [pkItems, hf, ctxTruthy, Bool.false_eq_true, if_false, bind,
        Except.bind, hv, if_true, hrepl, heta, hrest]
    · have hv2 : f.value.truthy = false := by simpa using hv
      simp only [pkItems, hf, ctxTruthy, Bool.false_eq_true, if_false, bind,
        Except.bind, hv2]

/-- C9: for every table with a declared primary key whose key columns all
exist, resolving the key with no context dictionary supplied (so each column
to its stored value), a falsy resolved value on any key column — not only
None, but also the legitimate key values 0 and the empty string — makes
_update_sql, _delete_sql and _pk_select_sql all raise
UnconstrainedWhereError. -/
theorem pk_falsy_raises (d : Dialect) (t : Table) (pkcols : List String)
    (hpk : t.primaryKey = some pkcols)
    (hall : ∀ n ∈ pkcols, (t.lookupField n).isSome)
    (hfalsy : ∃ n ∈ pkcols, ∃ f, t.lookupField n = some f ∧ f.value.truthy = false) :
    updateSql d t Option.none = .error .unconstrainedWhere ∧
    deleteSql d t Option.none = .error .unconstrainedWhere ∧
    pkSelectSql d t Option.none = .error .unconstrainedWhere := by
  have h := pkItems_none_falsy t pkcols hall hfalsy
  refine ⟨?_, ?_, ?_⟩ <;>
    simp [updateSql, deleteSql, pkSelectSql, hpk, h, bind, Except.bind]

/-- C9, at concrete inputs: a table whose integer key column stores 0 and a
table whose text key column stores the empty string. -/
theorem pk_falsy_raises_witness :
    (updateSql sqliteDialect (headerRow "hdr_zero" (.int 0) (.int 5)) Option.none =
        .error .unconstrainedWhere ∧
      deleteSql sqliteDialect (headerRow "hdr_zero" (.int 0) (.int 5)) Option.none =
        .error .unconstrainedWhere ∧
      pkSelectSql sqliteDialect (headerRow "hdr_zero" (.int 0) (.int 5)) Option.none =
        .error .unconstrainedWhere) ∧
    (updateSql sqliteDialect (codeRow (.str "")) Option.none =
        .error .unconstrainedWhere ∧
      deleteSql sqliteDialect (codeRow (.str "")) Option.none =
        .error .unconstrainedWhere ∧
      pkSelectSql sqliteDialect (codeRow (.str "")) Option.none =
        .error .unconstrainedWhere) :=
  ⟨pk_falsy_raises sqliteDialect (headerRow "hdr_zero" (.int 0) (.int 5)) ["trans_id"]
      rfl (by decide) (by decide),
   pk_falsy_raises sqliteDialect (codeRow (.str "")) ["code"]
      rfl (by decide) (by decide)⟩

/-! ### C3 — _get_context builds truthy entries only -/

/-- C3 counterexample: a transaction with one plain context field n storing
the integer 0 — a non-null value — builds a context dictionary with no entry
for n, because the code keeps an entry only `if tmp:`; this refutes "an entry
for exactly those context fields whose stored value is non-null". -/
theorem getContextMap_zero_counterexample :
    (getContextMap zeroFieldTrans).map Prod.fst =
      .ok [("__name__", .str "T"), ("__version__", PyValue.none)] := rfl

theorem getContextD_plainNoKey (f : Field) (ctx : Ctx) (h : plainNoKey f = true) :
    f.getContextD ctx = .ok (f.value, f, ctx) := by
  obtain ⟨nm, sn, ft, nl, cu, kd, val⟩ := f
  obtain ⟨h1, h2⟩ : cu.isNone = true ∧ isRowEnum kd = false := by
    simpa [plainNoKey, Bool.and_eq_true] using h
  have hcu : cu = Option.none := Option.isNone_iff_eq_none.mp h1
  subst hcu
  cases kd with
  | rowEnum s => simp [isRowEnum] at h2
  | plain q => simp [Field.getContextD, fieldGetContext, Except.map]
  | seqLinked => simp [Field.getContextD, fieldGetContext, Except.map]

theorem getContextFold_plain (fs : List Field) :
    ∀ ctx : Ctx,
      (∀ f ∈ fs, plainNoKey f = true) →
      (∀ f ∈ fs, ctxLookup ctx f.name = Option.none) →
      (fs.map Field.name).Nodup →
      getContextFold fs ctx =
        .ok (ctx ++ (fs.filter (fun f => f.value.truthy)).map
              (fun f => (f.name, f.value)), fs) := by
  induction fs with
  | nil => intro ctx _ _ _; simp [getContextFold]
  | cons f rest ih =>
    intro ctx hplain hfresh hnodup
    have hf := hplain f (by simp)
    obtain ⟨hno, hnd⟩ : (∀ x ∈ rest, ¬ x.name = f.name) ∧
        (List.map Field.name rest).Nodup := by
      simpa [List.map_cons, List.nodup_cons] using hnodup
    by_cases ht : f.value.truthy
    · have hset : ctxSet ctx f.name f.value = ctx ++ [(f.name, f.value)] :=
        ctxSet_fresh ctx f.name f.value (hfresh f (by simp))
      have hrest := ih (ctx ++ [(f.name, f.value)])
        (fun g hg => hplain g (List.mem_cons_of_mem _ hg))
        (fun g hg => by
          rw [ctxLookup_append, hfresh g (List.mem_cons_of_mem _ hg)]
          have hne : (f.name == g.name) = false :=
            beq_eq_false_iff_ne.mpr (fun hh => hno g hg hh.symm)
          simp [ctxLookup, hne])
        hnd
      simp only [getContextFold, getContextD_plainNoKey f ctx hf, bind, Except.bind,
        ht, if_true, hset, hrest]
      simp [List.filter_cons, ht, List.append_assoc]
    · have ht2 : f.value.truthy = false := by simpa using ht
      have hrest := ih ctx
        (fun g hg => hplain g (List.mem_cons_of_mem _ hg))
        (fun g hg => hfresh g (List.mem_cons_of_mem _ hg))
        hnd
      simp only [getContextFold, getContextD_plainNoKey f ctx hf, bind, Except.bind,
        ht2, Bool.false_eq_true, if_false, hrest]
      simp [List.filter_cons, ht2]

/-- C3 amended: for a transaction whose context fields are all plain fields
with no declared context key (the shape the spec's `_get_context` description
assumes — an enumerator or key-carrying context field resolves through the
dictionary and can mutate the transaction or raise), `_get_context` returns
the reserved entries followed by an entry for exactly those context fields
whose stored value is truthy — non-null, but also neither 0 nor the empty
string — in declaration order, and leaves the transaction's stored field
values unchanged; the embedding of `_get_context` takes no cursor, reflecting
that the build touches no database. -/
theorem getContext_plain_truthy (tx : STrans)
    (hplain : ∀ f ∈ tx.ctxFields, plainNoKey f = true)
    (hnodup : (tx.ctxFields.map Field.name).Nodup)
    (hres : ∀ f ∈ tx.ctxFields, f.name ≠ "__name__" ∧ f.name ≠ "__version__") :
    getContextMap tx =
      .ok (initialContext tx.className tx.version ++
            (tx.ctxFields.filter (fun f => f.value.truthy)).map
              (fun f => (f.name, f.value)), tx) := by
  have hfresh : ∀ f ∈ tx.ctxFields,
      ctxLookup (initialContext tx.className tx.version) f.name = Option.none := by
    intro f hf
    obtain ⟨h1, h2⟩ := hres f hf
    have e1 : ("__name__" == f.name) = false := beq_eq_false_iff_ne.mpr (Ne.symm h1)
    have e2 : ("__version__" == f.name) = false := beq_eq_false_iff_ne.mpr (Ne.symm h2)
    simp [initialContext, ctxLookup, e1, e2]
  rw [getContextMap, getContextFold_plain tx.ctxFields _ hplain hfresh hnodup]
  rfl

/-- C3 amended, at a concrete input: context fields storing 5, 0 and the
empty string produce entries for the reserved keys and for the 5 only. -/
theorem getContext_plain_truthy_witness :
    getContextMap mixedFieldTrans =
      .ok ([("__name__", .str "Mixed"), ("__version__", .str "2"), ("a", .int 5)],
           mixedFieldTrans) :=
  (getContext_plain_truthy mixedFieldTrans (by decide) (by decide)
      (by decide)).trans (by rfl)

/-! ### C10 — reserved context keys -/

theorem getContextD_preserves (f : Field) (ctx : Ctx) (key : String) (v : PyValue)
    (hk : ctxLookup ctx key = some v) (hv : pyAdd1 v = .error .typeError) :
    ∀ tmp f' ctx', f.getContextD ctx = .ok (tmp, f', ctx') →
      ctxLookup ctx' key = some v := by
  intro tmp f' ctx' h
  cases hkind : f.kind with
  | plain q =>
    simp only [Field.getContextD, hkind] at h
    cases hfg : fieldGetContext f.ftype f.nullable f.contextUsed f.value (some ctx) with
    | error e => simp [hfg, Except.map] at h
    | ok r =>
      simp only [hfg, Except.map, Except.ok.injEq, Prod.mk.injEq] at h
      rw [← h.2.2]
      exact hk
  | seqLinked =>
    simp only [Field.getContextD, hkind] at h
    cases hfg : fieldGetContext f.ftype f.nullable f.contextUsed f.value (some ctx) with
    | error e => simp [hfg, Except.map] at h
    | ok r =>
      simp only [hfg, Except.map, Except.ok.injEq, Prod.mk.injEq] at h
      rw [← h.2.2]
      exact hk
  | rowEnum s =>
    cases hcu : f.contextUsed with
    | none =>
      simp only [Field.getContextD, hkind, hcu, Except.ok.injEq, Prod.mk.injEq] at h
      rw [← h.2.2]
      exact hk
    | some k2 =>
      by_cases hkey : k2 = key
      · subst hkey
        simp [Field.getContextD, hkind, hcu, rowEnumGetContext, hk, hv, bind,
          Except.bind, Except.map] at h
      · cases hl : ctxLookup ctx k2 with
        | none =>
          simp only [Field.getContextD, hkind, hcu, rowEnumGetContext, hl,
            Except.map, Except.ok.injEq, Prod.mk.injEq] at h
          rw [← h.2.2, ctxLookup_ctxSet_other ctx k2 key _ hkey]
          exact hk
        | some w =>
          cases ha : pyAdd1 w with
          | error e =>
            simp [Field.getContextD, hkind, hcu, rowEnumGetContext, hl, ha,
              bind, Except.bind, Except.map] at h
          | ok w2 =>
            simp only [Field.getContextD, hkind, hcu, rowEnumGetContext, hl, ha,
              bind, Except.bind, Except.map, Except.ok.injEq, Prod.mk.injEq] at h
            rw [← h.2.2, ctxLookup_ctxSet_other ctx k2 key _ hkey]
            exact hk

theorem getContextFold_preserves (key : String) (v : PyValue)
    (hv : pyAdd1 v = .error .typeError) :
    ∀ (fs : List Field) (ctx : Ctx), (∀ f ∈ fs, f.name ≠ key) →
      ctxLookup ctx key = some v →
      ∀ m fs', getContextFold fs ctx = .ok (m, fs') → ctxLookup m key = some v := by
  intro fs
  induction fs with
  | nil =>
    intro ctx _ hk m fs' h
    simp only [getContextFold, Except.ok.injEq, Prod.mk.injEq] at h
    rw [← h.1]
    exact hk
  | cons f rest ih =>
    intro ctx hn hk m fs' h
    simp only [getContextFold, bind, Except.bind] at h
    cases hd : f.getContextD ctx with
    | error e => simp [hd] at h
    | ok r =>
      simp only [hd] at h
      have hc' : ctxLookup r.2.2 key = some v :=
        getContextD_preserves f ctx key v hk hv r.1 r.2.1 r.2.2 (by rw [hd])
      have hc1 : ctxLookup (if r.1.truthy then ctxSet r.2.2 f.name r.1 else r.2.2) key
          = some v := by
        by_cases ht : r.1.truthy
        · rw [if_pos ht, ctxLookup_ctxSet_other _ _ _ _ (hn f (by simp))]
          exact hc'
        · rw [if_neg ht]
          exact hc'
      cases hrest : getContextFold rest
          (if r.1.truthy then ctxSet r.2.2 f.name r.1 else r.2.2) with
      | error e => simp [hrest] at h
      | ok r2 =>
        simp only [hrest, Except.ok.injEq, Prod.mk.injEq] at h
        rw [← h.1]
        exact ih _ (fun g hg => hn g (List.mem_cons_of_mem _ hg)) hc1 r2.1 r2.2
          (by rw [hrest])

theorem refreshedFold_preserves (oracle : Nat → PyValue) (key : String) (v : PyValue) :
    ∀ (fs : List Field) (ctx : Ctx) (n : Nat), (∀ f ∈ fs, f.name ≠ key) →
      ctxLookup ctx key = some v →
      ∀ m fs' n', refreshedContextFold oracle fs ctx n = .ok (m, fs', n') →
        ctxLookup m key = some v := by
  intro fs
  induction fs with
  | nil =>
    intro ctx n _ hk m fs' n' h
    simp only [refreshedContextFold, Except.ok.injEq, Prod.mk.injEq] at h
    rw [← h.1]
    exact hk
  | cons f rest ih =>
    intro ctx n hn hk m fs' n' h
    simp only [refreshedContextFold, bind, Except.bind] at h
    cases hd : f.refresh oracle n with
    | error e => simp [hd] at h
    | ok r =>
      simp only [hd] at h
      have hc1 : ctxLookup (if r.1.truthy then ctxSet ctx f.name r.1 else ctx) key
          = some v := by
        by_cases ht : r.1.truthy
        · rw [if_pos ht, ctxLookup_ctxSet_other _ _ _ _ (hn f (by simp))]
          exact hk
        · rw [if_neg ht]
          exact hk
      cases hrest : refreshedContextFold oracle rest
          (if r.1.truthy then ctxSet ctx f.name r.1 else ctx) r.2.2 with
      | error e => simp [hrest] at h
      | ok r2 =>
        simp only [hrest, Except.ok.injEq, Prod.mk.injEq] at h
        rw [← h.1]
        exact ih _ r.2.2 (fun g hg => hn g (List.mem_cons_of_mem _ hg)) hc1
          r2.1 r2.2.1 r2.2.2 (by rw [hrest])

theorem updatedFold_preserves (oracle : Nat → PyValue) (key : String) (v : PyValue) :
    ∀ (fs : List Field) (ctx : Ctx) (n : Nat), (∀ f ∈ fs, f.name ≠ key) →
      ctxLookup ctx key = some v →
      ∀ m fs' n', updatedContextFold oracle fs ctx n = .ok (m, fs', n') →
        ctxLookup m key = some v := by
  intro fs
  induction fs with
  | nil =>
    intro ctx n _ hk m fs' n' h
    simp only [updatedContextFold, Except.ok.injEq, Prod.mk.injEq] at h
    rw [← h.1]
    exact hk
  | cons f rest ih =>
    intro ctx n hn hk m fs' n' h
    simp only [updatedContextFold, bind, Except.bind] at h
    cases hd : f.update oracle n with
    | error e => simp [hd] at h
    | ok r =>
      simp only [hd] at h
      have hc1 : ctxLookup (if r.1.truthy then ctxSet ctx f.name r.1 else ctx) key
          = some v := by
        by_cases ht : r.1.truthy
        · rw [if_pos ht, ctxLookup_ctxSet_other _ _ _ _ (hn f (by simp))]
          exact hk
        · rw [if_neg ht]
          exact hk
      cases hrest : updatedContextFold oracle rest
          (if r.1.truthy then ctxSet ctx f.name r.1 else ctx) r.2.2 with
      | error e => simp [hrest] at h
      | ok r2 =>
        simp only [hrest, Except.ok.injEq, Prod.mk.injEq] at h
        rw [← h.1]
        exact ih _ r.2.2 (fun g hg => hn g (List.mem_cons_of_mem _ hg)) hc1
          r2.1 r2.2.1 r2.2.2 (by rw [hrest])

/-- C10: every context dictionary a transaction builds — through
`_get_context`, `_get_refreshed_context` or `_get_updated_context` — holds
the transaction class's name under the reserved key `__name__` and its
declared version under `__version__`, provided no context field is itself
named with one of the two reserved names (the dictionaries are seeded with
both entries, and the per-field writes go to field names, while an enumerator
whose context key collided with a reserved entry would fail on the string or
None value rather than corrupt it). -/
theorem context_reserved_keys (tx : STrans) (oracle : Nat → PyValue)
    (hres : ∀ f ∈ tx.ctxFields, f.name ≠ "__name__" ∧ f.name ≠ "__version__") :
    (∀ m tx', getContextMap tx = .ok (m, tx') →
      ctxLookup m "__name__" = some (.str tx.className) ∧
      ctxLookup m "__version__" = some (versionValue tx.version)) ∧
    (∀ m tx', getRefreshedContext tx oracle = .ok (m, tx') →
      ctxLookup m "__name__" = some (.str tx.className) ∧
      ctxLookup m "__version__" = some (versionValue tx.version)) ∧
    (∀ m tx', getUpdatedContext tx oracle = .ok (m, tx') →
      ctxLookup m "__name__" = some (.str tx.className) ∧
      ctxLookup m "__version__" = some (versionValue tx.version)) := by
  have hn0 : ctxLookup (initialContext tx.className tx.version) "__name__"
      = some (.str tx.className) := by
    simp [initialContext, ctxLookup]
  have hv0 : ctxLookup (initialContext tx.className tx.version) "__version__"
      = some (versionValue tx.version) := by
    simp [initialContext, ctxLookup]
  have hadd1 : pyAdd1 (.str tx.className) = .error .typeError := rfl
  have hadd2 : pyAdd1 (versionValue tx.version) = .error .typeError := by
    cases tx.version <;> rfl
  refine ⟨?_, ?_, ?_⟩
  · intro m tx' h
    simp only [getContextMap] at h
    cases hf : getContextFold tx.ctxFields (initialContext tx.className tx.version) with
    | error e => simp [hf, Except.map] at h
    | ok r =>
      simp only [hf, Except.map, Except.ok.injEq, Prod.mk.injEq] at h
      rw [← h.1]
      exact ⟨getContextFold_preserves "__name__" (.str tx.className) hadd1
          tx.ctxFields _ (fun f hf2 => (hres f hf2).1) hn0 r.1 r.2 (by rw [hf]),
        getContextFold_preserves "__version__" (versionValue tx.version) hadd2
          tx.ctxFields _ (fun f hf2 => (hres f hf2).2) hv0 r.1 r.2 (by rw [hf])⟩
  · intro m tx' h
    simp only [getRefreshedContext] at h
    cases hf : refreshedContextFold oracle tx.ctxFields
        (initialContext tx.className tx.version) 0 with
    | error e => simp [hf, Except.map] at h
    | ok r =>
      simp only [hf, Except.map, Except.ok.injEq, Prod.mk.injEq] at h
      rw [← h.1]
      exact ⟨refreshedFold_preserves oracle "__name__" (.str tx.className)
          tx.ctxFields _ 0 (fun f hf2 => (hres f hf2).1) hn0 r.1 r.2.1 r.2.2
          (by rw [hf]),
        refreshedFold_preserves oracle "__version__" (versionValue tx.version)
          tx.ctxFields _ 0 (fun f hf2 => (hres f hf2).2) hv0 r.1 r.2.1 r.2.2
          (by rw [hf])⟩
  · intro m tx' h
    simp only [getUpdatedContext] at h
    cases hf : updatedContextFold oracle tx.ctxFields
        (initialContext tx.className tx.version) 0 with
    | error e => simp [hf, Except.map] at h
    | ok r =>
      simp only [hf, Except.map, Except.ok.injEq, Prod.mk.injEq] at h
      rw [← h.1]
      exact ⟨updatedFold_preserves oracle "__name__" (.str tx.className)
          tx.ctxFields _ 0 (fun f hf2 => (hres f hf2).1) hn0 r.1 r.2.1 r.2.2
          (by rw [hf]),
        updatedFold_preserves oracle "__version__" (versionValue tx.version)
          tx.ctxFields _ 0 (fun f hf2 => (hres f hf2).2) hv0 r.1 r.2.1 r.2.2
          (by rw [hf])⟩

/-- C10, at a concrete input: the dictionary `_get_context` builds for the
sample transaction holds its class name and version under the reserved
keys. -/
theorem context_reserved_keys_witness :
    ctxLookup [("__name__", .str "Mixed"), ("__version__", .str "2"), ("a", .int 5)]
        "__name__" = some (.str "Mixed") ∧
    ctxLookup [("__name__", .str "Mixed"), ("__version__", .str "2"), ("a", .int 5)]
        "__version__" = some (.str "2") :=
  (context_reserved_keys mixedFieldTrans (fun _ => .int 1) (by decide)).1
    [("__name__", .str "Mixed"), ("__version__", .str "2"), ("a", .int 5)]
    mixedFieldTrans (by rfl)

/-! ### C5 — reverse-order traversal of _update and _delete

The statement texts `_update_sql` and `_delete_sql` emit depend only on the
static, class-level data of a table (names and primary key), not on the slot
values or on the dictionary, so the traversal order of `_update`/`_delete` is
visible in the SQL texts of the trace.  The lemmas below show the builders
preserve that static data (value resolution only rewrites slot values). -/

theorem getContextD_erase (f : Field) (ctx : Ctx) :
    ∀ tmp f' ctx', f.getContextD ctx = .ok (tmp, f', ctx') →
      eraseValue f' = eraseValue f := by
  intro tmp f' ctx' h
  cases hkind : f.kind with
  | plain q =>
    simp only [Field.getContextD, hkind] at h
    cases hfg : fieldGetContext f.ftype f.nullable f.contextUsed f.value (some ctx) with
    | error e => simp [hfg, Except.map] at h
    | ok r =>
      simp only [hfg, Except.map, Except.ok.injEq, Prod.mk.injEq] at h
      rw [← h.2.1]
      simp [eraseValue, hkind]
  | seqLinked =>
    simp only [Field.getContextD, hkind] at h
    cases hfg : fieldGetContext f.ftype f.nullable f.contextUsed f.value (some ctx) with
    | error e => simp [hfg, Except.map] at h
    | ok r =>
      simp only [hfg, Except.map, Except.ok.injEq, Prod.mk.injEq] at h
      rw [← h.2.1]
      simp [eraseValue, hkind]
  | rowEnum s =>
    cases hcu : f.contextUsed with
    | none =>
      simp only [Field.getContextD, hkind, hcu, Except.ok.injEq, Prod.mk.injEq] at h
      rw [← h.2.1]
      simp [eraseValue, hkind, hcu]
    | some k2 =>
      cases hre : rowEnumGetContext k2 s (some ctx) with
      | error e => simp [Field.getContextD, hkind, hcu, hre, Except.map] at h
      | ok r =>
        simp only [Field.getContextD, hkind, hcu, hre, Except.map,
          Except.ok.injEq, Prod.mk.injEq] at h
        rw [← h.2.1]
        simp [eraseValue, hkind, hcu]

theorem getContext_erase (f : Field) (ctx : Option Ctx) :
    ∀ tmp f' ctx', f.getContext ctx = .ok (tmp, f', ctx') →
      eraseValue f' = eraseValue f := by
  intro tmp f' ctx' h
  cases ctx with
  | some c =>
    simp only [Field.getContext] at h
    cases hd : f.getContextD c with
    | error e => simp [hd, Except.map] at h
    | ok r =>
      simp only [hd, Except.map, Except.ok.injEq, Prod.mk.injEq] at h
      rw [← h.2.1]
      exact getContextD_erase f c r.1 r.2.1 r.2.2 (by rw [hd])
  | none =>
    cases hkind : f.kind with
    | rowEnum s => simp [Field.getContext, hkind] at h
    | plain q =>
      simp only [Field.getContext, hkind] at h
      cases hfg : fieldGetContext f.ftype f.nullable f.contextUsed f.value
          Option.none with
      | error e => simp [hfg, Except.map] at h
      | ok r =>
        simp only [hfg, Except.map, Except.ok.injEq, Prod.mk.injEq] at h
        rw [← h.2.1]
        simp [eraseValue, hkind]
    | seqLinked =>
      simp only [Field.getContext, hkind] at h
      cases hfg : fieldGetContext f.ftype f.nullable f.contextUsed f.value
          Option.none with
      | error e => simp [hfg, Except.map] at h
      | ok r =>
        simp only [hfg, Except.map, Except.ok.injEq, Prod.mk.injEq] at h
        rw [← h.2.1]
        simp [eraseValue, hkind]

theorem eraseValue_congr_name (f g : Field) (h : eraseValue f = eraseValue g) :
    f.name = g.name ∧ f.sqlName = g.sqlName := by
  refine ⟨?_, ?_⟩
  · have := congrArg Field.name h
    simpa [eraseValue] using this
  · have := congrArg Field.sqlName h
    simpa [eraseValue] using this

theorem replaceField_erase (fs : List Field) (n : String) (f f' : Field)
    (hfind : fs.find? (fun g => g.name == n) = some f)
    (hname : f'.name = f.name) (he : eraseValue f' = eraseValue f) :
    (replaceField fs f').map eraseValue = fs.map eraseValue := by
  induction fs with
  | nil => simp [replaceField]
  | cons g rest ih =>
    by_cases hg : (g.name == n) = true
    · simp only [List.find?, hg] at hfind
      have hfg : g = f := by injection hfind
      have hgn : (g.name == f'.name) = true := by
        rw [hname, hfg]
        exact beq_self_eq_true _
      have hef : eraseValue f' = eraseValue g := by rw [hfg]; exact he
      simp [replaceField, hgn, hef]
    · have hg2 : (g.name == n) = false := by simpa using hg
      simp only [List.find?, hg2] at hfind
      have hfn : f.name = n := find?_name_eq rest n f hfind
      have hne : (g.name == f'.name) = false := by
        rw [hname, hfn]
        exact hg2
      simp [replaceField, hne, ih hfind]

theorem lookupField_erase_congr (fs : List Field) :
    ∀ gs : List Field, fs.map eraseValue = gs.map eraseValue → ∀ n : String,
      Option.map eraseValue (fs.find? (fun f => f.name == n)) =
        Option.map eraseValue (gs.find? (fun f => f.name == n)) := by
  induction fs with
  | nil =>
    intro gs h n
    cases gs with
    | nil => rfl
    | cons g gs => simp at h
  | cons f fs ih =>
    intro gs h n
    cases gs with
    | nil => simp at h
    | cons g gs =>
      simp only [List.map_cons, List.cons.injEq] at h
      obtain ⟨h1, h2⟩ := h
      have hname : f.name = g.name := (eraseValue_congr_name f g h1).1
      by_cases hn : (f.name == n) = true
      · have hgn : (g.name == n) = true := by rw [← hname]; exact hn
        simp [List.find?, hn, hgn, h1]
      · have hn2 : (f.name == n) = false := by simpa using hn
        have hgn : (g.name == n) = false := by rw [← hname]; exact hn2
        simp only [List.find?, hn2, hgn]
        exact ih gs h2 n

theorem pkSqlNames_congr (t t' : Table) (pkcols : List String)
    (h : t'.fields.map eraseValue = t.fields.map eraseValue) :
    pkSqlNames t' pkcols = pkSqlNames t pkcols := by
  unfold pkSqlNames Table.lookupField
  apply List.map_congr_left
  intro n _
  have hcong := lookupField_erase_congr t'.fields t.fields h n
  cases h1 : t'.fields.find? (fun f => f.name == n) with
  | none =>
    cases h2 : t.fields.find? (fun f => f.name == n) with
    | none => rfl
    | some g =>
      rw [h1, h2] at hcong
      simp at hcong
  | some g =>
    cases h2 : t.fields.find? (fun f => f.name == n) with
    | none =>
      rw [h1, h2] at hcong
      simp at hcong
    | some g2 =>
      rw [h1, h2] at hcong
      simp at hcong
      have hs := (eraseValue_congr_name g g2 hcong).2
      simp [hs]

theorem nonPkSqlNames_congr (fs : List Field) :
    ∀ gs : List Field, fs.map eraseValue = gs.map eraseValue →
    ∀ pkcols : List String, nonPkSqlNames fs pkcols = nonPkSqlNames gs pkcols := by
  induction fs with
  | nil =>
    intro gs h _
    cases gs with
    | nil => rfl
    | cons g gs => simp at h
  | cons f fs ih =>
    intro gs h pkcols
    cases gs with
    | nil => simp at h
    | cons g gs =>
      simp only [List.map_cons, List.cons.injEq] at h
      obtain ⟨h1, h2⟩ := h
      obtain ⟨hname, hsql⟩ := eraseValue_congr_name f g h1
      have htail := ih gs h2 pkcols
      unfold nonPkSqlNames at htail ⊢
      simp only [List.filter_cons, hname, hsql]
      by_cases hc : pkcols.contains g.name
      · simp only [hc, Bool.not_true, Bool.false_eq_true, if_false]
        exact htail
      · have hc2 : pkcols.contains g.name = false := by simpa using hc
        simp only [hc2, Bool.not_false, if_true, List.map_cons, hsql]
        rw [htail]

theorem pkItems_static (pkcols : List String) :
    ∀ (t : Table) (ctx : Option Ctx) ns vs t2 ctx2,
      pkItems t pkcols ctx = .ok (ns, vs, t2, ctx2) →
      ns = pkSqlNames t pkcols ∧
      t2.fields.map eraseValue = t.fields.map eraseValue ∧
      t2.tableName = t.tableName := by
  induction pkcols with
  | nil =>
    intro t ctx ns vs t2 ctx2 h
    simp only [pkItems, Except.ok.injEq, Prod.mk.injEq] at h
    refine ⟨h.1.symm, ?_, ?_⟩
    · rw [← h.2.2.1]
    · rw [← h.2.2.1]
  | cons n rest ih =>
    intro t ctx ns vs t2 ctx2 h
    simp only [pkItems, bind, Except.bind] at h
    cases hlf : t.lookupField n with
    | none => simp only [hlf] at h; simp at h
    | some f =>
      simp only [hlf] at h
      have hfind : t.fields.find? (fun g => g.name == n) = some f := hlf
      by_cases hct : ctxTruthy ctx = true
      · simp only [hct, if_true] at h
        cases hgc : f.getContext ctx with
        | error e => simp only [hgc] at h; exact Except.noConfusion h
        | ok v =>
          simp only [hgc] at h
          have herase : eraseValue v.2.1 = eraseValue f :=
            getContext_erase f ctx v.1 v.2.1 v.2.2 (by rw [hgc])
          by_cases hvt : v.1.truthy = true
          · simp only [hvt, if_true] at h
            cases hrec : pkItems {t with fields := replaceField t.fields v.2.1}
                rest v.2.2 with
            | error e => simp only [hrec] at h; exact Except.noConfusion h
            | ok r2 =>
              simp only [hrec, Except.ok.injEq, Prod.mk.injEq] at h
              have hrep : (replaceField t.fields v.2.1).map eraseValue =
                  t.fields.map eraseValue :=
                replaceField_erase t.fields n f v.2.1 hfind
                  ((eraseValue_congr_name v.2.1 f herase).1) herase
              obtain ⟨ihns, iherase, ihname⟩ :=
                ih {t with fields := replaceField t.fields v.2.1} v.2.2
                  r2.1 r2.2.1 r2.2.2.1 r2.2.2.2 (by rw [hrec])
              refine ⟨?_, ?_, ?_⟩
              · rw [← h.1, ihns]
                have hcong :
                    pkSqlNames {t with fields := replaceField t.fields v.2.1}
                      rest = pkSqlNames t rest :=
                  pkSqlNames_congr t _ rest (by simpa using hrep)
                rw [hcong]
                simp [pkSqlNames, Table.lookupField, hfind]
              · rw [← h.2.2.1]
                calc r2.2.2.1.fields.map eraseValue
                    = (replaceField t.fields v.2.1).map eraseValue := iherase
                  _ = t.fields.map eraseValue := hrep
              · rw [← h.2.2.1]
                exact ihname
          · rw [if_neg hvt] at h
            exact absurd h (by simp)
      · rw [if_neg hct] at h
        by_cases hvt : f.value.truthy = true
        · simp only [hvt, if_true] at h
          cases hrec : pkItems {t with fields := replaceField t.fields f}
              rest ctx with
          | error e => simp only [hrec] at h; exact Except.noConfusion h
          | ok r2 =>
            simp only [hrec, Except.ok.injEq, Prod.mk.injEq] at h
            have hrep : (replaceField t.fields f).map eraseValue =
                t.fields.map eraseValue :=
              replaceField_erase t.fields n f f hfind rfl rfl
            obtain ⟨ihns, iherase, ihname⟩ :=
              ih {t with fields := replaceField t.fields f} ctx
                r2.1 r2.2.1 r2.2.2.1 r2.2.2.2 (by rw [hrec])
            refine ⟨?_, ?_, ?_⟩
            · rw [← h.1, ihns]
              have hcong :
                  pkSqlNames {t with fields := replaceField t.fields f}
                    rest = pkSqlNames t rest :=
                pkSqlNames_congr t _ rest (by simpa using hrep)
              rw [hcong]
              simp [pkSqlNames, Table.lookupField, hfind]
            · rw [← h.2.2.1]
              calc r2.2.2.1.fields.map eraseValue
                  = (replaceField t.fields f).map eraseValue := iherase
                _ = t.fields.map eraseValue := hrep
            · rw [← h.2.2.1]
              exact ihname
        · rw [if_neg hvt] at h
          exact absurd h (by simp)

theorem resolveNonPk_names (d : Dialect) (pkcols : List String) :
    ∀ (fields : List Field) (ctx : Option Ctx) ns vs fs2 ctx2,
      resolveNonPk d fields pkcols ctx = .ok (ns, vs, fs2, ctx2) →
      ns = nonPkSqlNames fields pkcols := by
  intro fields
  induction fields with
  | nil =>
    intro ctx ns vs fs2 ctx2 h
    simp only [resolveNonPk, Except.ok.injEq, Prod.mk.injEq] at h
    rw [← h.1]
    rfl
  | cons f rest ih =>
    intro ctx ns vs fs2 ctx2 h
    simp only [resolveNonPk, bind, Except.bind] at h
    by_cases hc : pkcols.contains f.name
    · have hm : f.name ∈ pkcols := by simpa using hc
      simp only [hc, if_true] at h
      cases hrec : resolveNonPk d rest pkcols ctx with
      | error e => simp only [hrec] at h; exact Except.noConfusion h
      | ok r =>
        simp only [hrec, Except.ok.injEq, Prod.mk.injEq] at h
        rw [← h.1, ih ctx r.1 r.2.1 r.2.2.1 r.2.2.2 (by rw [hrec])]
        simp [nonPkSqlNames, List.filter_cons, hm]
    · have hc2 : pkcols.contains f.name = false := by simpa using hc
      have hm : ¬ f.name ∈ pkcols := by simpa using hc2
      simp only [hc2, Bool.false_eq_true, if_false] at h
      by_cases hct : ctxTruthy ctx = true
      · simp only [hct, if_true] at h
        cases hgc : f.getContext ctx with
        | error e => simp only [hgc] at h; exact Except.noConfusion h
        | ok v =>
          simp only [hgc] at h
          cases hrec : resolveNonPk d rest pkcols v.2.2 with
          | error e => simp only [hrec] at h; exact Except.noConfusion h
          | ok r2 =>
            simp only [hrec, Except.ok.injEq, Prod.mk.injEq] at h
            rw [← h.1, ih v.2.2 r2.1 r2.2.1 r2.2.2.1 r2.2.2.2 (by rw [hrec])]
            simp [nonPkSqlNames, List.filter_cons, hm]
      · rw [if_neg hct] at h
        cases hrec : resolveNonPk d rest pkcols ctx with
        | error e => simp only [hrec] at h; exact Except.noConfusion h
        | ok r2 =>
          simp only [hrec, Except.ok.injEq, Prod.mk.injEq] at h
          rw [← h.1, ih ctx r2.1 r2.2.1 r2.2.2.1 r2.2.2.2 (by rw [hrec])]
          simp [nonPkSqlNames, List.filter_cons, hm]

theorem updateSql_text (d : Dialect) (t : Table) (ctx : Option Ctx) :
    ∀ s vals t2 ctx2, updateSql d t ctx = .ok ((s, vals), t2, ctx2) →
      s = updateSqlText d t := by
  intro s vals t2 ctx2 h
  cases hpk : t.primaryKey with
  | none => simp [updateSql, hpk] at h
  | some pkcols =>
    simp only [updateSql, hpk, bind, Except.bind] at h
    cases hp : pkItems t pkcols ctx with
    | error e => simp only [hp] at h; simp at h
    | ok r =>
      simp only [hp] at h
      cases hr : resolveNonPk d r.2.2.1.fields pkcols r.2.2.2 with
      | error e => simp only [hr] at h; simp at h
      | ok r2 =>
        simp only [hr, Except.ok.injEq, Prod.mk.injEq] at h
        obtain ⟨hstat1, hstat2, _⟩ :=
          pkItems_static pkcols t ctx r.1 r.2.1 r.2.2.1 r.2.2.2 (by rw [hp])
        have hups := resolveNonPk_names d pkcols r.2.2.1.fields r.2.2.2
          r2.1 r2.2.1 r2.2.2.1 r2.2.2.2 (by rw [hr])
        have hnonpk : nonPkSqlNames r.2.2.1.fields pkcols =
            nonPkSqlNames t.fields pkcols :=
          nonPkSqlNames_congr _ _ hstat2 pkcols
        rw [← h.1.1]
        unfold updateSqlText
        rw [hpk, hups, hnonpk, hstat1]

theorem deleteSql_text (d : Dialect) (t : Table) (ctx : Option Ctx) :
    ∀ s vals t2 ctx2, deleteSql d t ctx = .ok ((s, vals), t2, ctx2) →
      s = deleteSqlText d t := by
  intro s vals t2 ctx2 h
  cases hpk : t.primaryKey with
  | none => simp [deleteSql, hpk] at h
  | some pkcols =>
    simp only [deleteSql, hpk, bind, Except.bind] at h
    cases hp : pkItems t pkcols ctx with
    | error e => simp only [hp] at h; simp at h
    | ok r =>
      simp only [hp, Except.ok.injEq, Prod.mk.injEq] at h
      obtain ⟨hstat1, _, _⟩ :=
        pkItems_static pkcols t ctx r.1 r.2.1 r.2.2.1 r.2.2.2 (by rw [hp])
      rw [← h.1.1]
      unfold deleteSqlText
      rw [hpk, hstat1]

theorem rowOpFold_sqlText (sqlFn : RowSqlFn) (textFn : Table → String)
    (hfn : ∀ t ctx s vals t2 ctx2,
      sqlFn t ctx = .ok ((s, vals), t2, ctx2) → s = textFn t) :
    ∀ (ts : List Table) (ctx : Option Ctx) ops c,
      rowOpFold sqlFn ts ctx = (ops, c, Option.none) →
      ops.map CursorOp.sqlText = ts.map textFn := by
  intro ts
  induction ts with
  | nil =>
    intro ctx ops c h
    simp only [rowOpFold, Prod.mk.injEq] at h
    rw [← h.1]
    rfl
  | cons t rest ih =>
    intro ctx ops c h
    simp only [rowOpFold] at h
    cases hs : sqlFn t ctx with
    | error e =>
      simp only [hs, Prod.mk.injEq] at h
      exact Option.noConfusion h.2.2
    | ok r =>
      simp only [hs] at h
      cases hrec : rowOpFold sqlFn rest r.2.2 with
      | mk ops1 q =>
        simp only [hrec, Prod.mk.injEq] at h
        rw [← h.1]
        have htail := ih r.2.2 ops1 q.1 (by rw [hrec, ← h.2.2])
        simp only [List.map_cons, CursorOp.sqlText, htail]
        rw [hfn t ctx r.1.1 r.1.2 r.2.1 r.2.2 (by rw [hs])]

theorem memberOpFold_sqlText (sqlFn : RowSqlFn) (textFn : Table → String)
    (hfn : ∀ t ctx s vals t2 ctx2,
      sqlFn t ctx = .ok ((s, vals), t2, ctx2) → s = textFn t) :
    ∀ (ts : List (Option Table)) (ctx : Option Ctx) ops c,
      memberOpFold sqlFn ts ctx = (ops, c, Option.none) →
      ops.map CursorOp.sqlText = (ts.filterMap id).map textFn := by
  intro ts
  induction ts with
  | nil =>
    intro ctx ops c h
    simp only [memberOpFold, Prod.mk.injEq] at h
    rw [← h.1]
    rfl
  | cons ot rest ih =>
    intro ctx ops c h
    cases ot with
    | none =>
      simp only [memberOpFold] at h
      simpa using ih ctx ops c h
    | some t =>
      simp only [memberOpFold] at h
      cases hs : sqlFn t ctx with
      | error e =>
        simp only [hs, Prod.mk.injEq] at h
        exact Option.noConfusion h.2.2
      | ok r =>
        simp only [hs] at h
        cases hrec : memberOpFold sqlFn rest r.2.2 with
        | mk ops1 q =>
          simp only [hrec, Prod.mk.injEq] at h
          rw [← h.1]
          have htail := ih r.2.2 ops1 q.1 (by rw [hrec, ← h.2.2])
          simp only [List.filterMap_cons, id, List.map_cons, CursorOp.sqlText,
            htail]
          rw [hfn t ctx r.1.1 r.1.2 r.2.1 r.2.2 (by rw [hs])]

theorem listOpFold_sqlText (sqlFn : RowSqlFn) (textFn : Table → String)
    (hfn : ∀ t ctx s vals t2 ctx2,
      sqlFn t ctx = .ok ((s, vals), t2, ctx2) → s = textFn t) :
    ∀ (rls : List RecordList) (ctx : Option Ctx) ops c,
      listOpFold sqlFn rls ctx = (ops, c, Option.none) →
      ops.map CursorOp.sqlText =
        (rls.filter RecordList.isTableType).flatMap
          (fun rl => rl.rows.map textFn) := by
  intro rls
  induction rls with
  | nil =>
    intro ctx ops c h
    simp only [listOpFold, Prod.mk.injEq] at h
    rw [← h.1]
    rfl
  | cons rl rest ih =>
    intro ctx ops c h
    simp only [listOpFold] at h
    by_cases htt : rl.isTableType
    · simp only [htt, if_true] at h
      cases hrow : rowOpFold sqlFn rl.rows ctx with
      | mk ops1 q =>
        cases q with
        | mk c1 e1 =>
          cases e1 with
          | some e =>
            simp only [hrow, Prod.mk.injEq] at h
            exact Option.noConfusion h.2.2
          | none =>
            simp only [hrow] at h
            cases hrec : listOpFold sqlFn rest c1 with
            | mk ops2 q2 =>
              simp only [hrec, Prod.mk.injEq] at h
              rw [← h.1]
              have hhead := rowOpFold_sqlText sqlFn textFn hfn rl.rows ctx
                ops1 c1 hrow
              have htail := ih c1 ops2 q2.1 (by rw [hrec, ← h.2.2])
              simp [List.filter_cons, htt, List.map_append, hhead, htail]
    · have htt2 : rl.isTableType = false := by simpa using htt
      simp only [htt2, Bool.false_eq_true, if_false] at h
      have := ih ctx ops c h
      simp [List.filter_cons, htt2, this]

theorem updateBody_trace (d : Dialect) (tx : STrans) :
    ∀ ops, updateBody d tx = (ops, Option.none) →
      ops.map CursorOp.sqlText =
        ((tx.recordlists.reverse.filter RecordList.isTableType).flatMap
          (fun rl => rl.rows.map (updateSqlText d))) ++
        (tx.records.reverse.filterMap id).map (updateSqlText d) := by
  intro ops h
  simp only [updateBody] at h
  cases hg : getContextMap tx with
  | error e =>
    simp only [hg, Prod.mk.injEq] at h
    exact Option.noConfusion h.2
  | ok p =>
    cases p with
    | mk context tx2 =>
      simp only [hg] at h
      cases hh : hookCheck (tx.preUpdateHook context) with
      | error e =>
        simp only [hh, Prod.mk.injEq] at h
        exact Option.noConfusion h.2
      | ok u =>
        simp only [hh] at h
        cases hv : verifyCheck tx.verifyResult with
        | error e =>
          simp only [hv, Prod.mk.injEq] at h
          exact Option.noConfusion h.2
        | ok u2 =>
          simp only [hv] at h
          cases hl : listOpFold (updateSql d) tx.recordlists.reverse
              (some context) with
          | mk ops1 q =>
            cases q with
            | mk c1 e1 =>
              cases e1 with
              | some e =>
                simp only [hl, Prod.mk.injEq] at h
                exact Option.noConfusion h.2
              | none =>
                simp only [hl] at h
                cases hm : memberOpFold (updateSql d) tx.records.reverse c1 with
                | mk ops2 q2 =>
                  simp only [hm, Prod.mk.injEq] at h
                  rw [← h.1, List.map_append]
                  rw [listOpFold_sqlText (updateSql d) (updateSqlText d)
                    (fun t ctx => updateSql_text d t ctx)
                    tx.recordlists.reverse (some context) ops1 c1 hl]
                  rw [memberOpFold_sqlText (updateSql d) (updateSqlText d)
                    (fun t ctx => updateSql_text d t ctx)
                    tx.records.reverse c1 ops2 q2.1 (by rw [hm, ← h.2])]

theorem deleteBody_trace (d : Dialect) (tx : STrans) :
    ∀ ops, deleteBody d tx = (ops, Option.none) →
      ops.map CursorOp.sqlText =
        ((tx.recordlists.reverse.filter RecordList.isTableType).flatMap
          (fun rl => rl.rows.map (deleteSqlText d))) ++
        (tx.records.reverse.filterMap id).map (deleteSqlText d) := by
  intro ops h
  simp only [deleteBody] at h
  cases hg : getContextMap tx with
  | error e =>
    simp only [hg, Prod.mk.injEq] at h
    exact Option.noConfusion h.2
  | ok p =>
    cases p with
    | mk context tx2 =>
      simp only [hg] at h
      cases hh : hookCheck (tx.preDeleteHook context) with
      | error e =>
        simp only [hh, Prod.mk.injEq] at h
        exact Option.noConfusion h.2
      | ok u =>
        simp only [hh] at h
        cases hv : verifyCheck tx.verifyResult with
        | error e =>
          simp only [hv, Prod.mk.injEq] at h
          exact Option.noConfusion h.2
        | ok u2 =>
          simp only [hv] at h
          cases hl : listOpFold (deleteSql d) tx.recordlists.reverse
              (some context) with
          | mk ops1 q =>
            cases q with
            | mk c1 e1 =>
              cases e1 with
              | some e =>
                simp only [hl, Prod.mk.injEq] at h
                exact Option.noConfusion h.2
              | none =>
                simp only [hl] at h
                cases hm : memberOpFold (deleteSql d) tx.records.reverse c1 with
                | mk ops2 q2 =>
                  simp only [hm, Prod.mk.injEq] at h
                  rw [← h.1, List.map_append]
                  rw [listOpFold_sqlText (deleteSql d) (deleteSqlText d)
                    (fun t ctx => deleteSql_text d t ctx)
                    tx.recordlists.reverse (some context) ops1 c1 hl]
                  rw [memberOpFold_sqlText (deleteSql d) (deleteSqlText d)
                    (fun t ctx => deleteSql_text d t ctx)
                    tx.records.reverse c1 ops2 q2.1 (by rw [hm, ← h.2])]

theorem withTransaction_trace (d : Dialect) (manual : Bool)
    (body : List CursorOp × Option PyErr) (ops : List CursorOp)
    (h : withTransaction d manual body = (ops, Option.none)) :
    body.2 = Option.none ∧
    ops.map CursorOp.sqlText =
      (if manual then [] else [d.beginTransactionSql]) ++
      body.1.map CursorOp.sqlText ++
      (if manual then [] else [d.commitSql]) := by
  cases body with
  | mk ops0 e0 =>
    cases e0 with
    | none =>
      simp only [withTransaction, Prod.mk.injEq] at h
      refine ⟨rfl, ?_⟩
      rw [← h.1]
      by_cases hman : manual = true
      · simp [hman]
      · have hman2 : manual = false := by simpa using hman
        simp [hman2, CursorOp.sqlText]
    | some e =>
      simp only [withTransaction, Prod.mk.injEq] at h
      exact Option.noConfusion h.2

/-- C5: `SQLTransaction._update` (transactions.py lines 369-397) issues
UPDATE statements for the rows of each attached record-list member in
reverse declaration order and then for each directly-attached record member
in reverse declaration order, and `SQLTransaction._delete` (lines 399-432)
issues its DELETE statements in the same reverse-order traversal: whenever
either operation completes without raising, the SQL texts executed between
the transaction bracket are exactly the per-table statement texts of the
reversed record-list members' rows followed by those of the reversed record
members. -/
theorem update_delete_reverse_order (d : Dialect) (tx : STrans) :
    (∀ ops, transUpdate d tx = (ops, Option.none) →
      ops.map CursorOp.sqlText =
        (if tx.manual then [] else [d.beginTransactionSql]) ++
        (((tx.recordlists.reverse.filter RecordList.isTableType).flatMap
            (fun rl => rl.rows.map (updateSqlText d))) ++
          (tx.records.reverse.filterMap id).map (updateSqlText d)) ++
        (if tx.manual then [] else [d.commitSql])) ∧
    (∀ ops, transDelete d tx = (ops, Option.none) →
      ops.map CursorOp.sqlText =
        (if tx.manual then [] else [d.beginTransactionSql]) ++
        (((tx.recordlists.reverse.filter RecordList.isTableType).flatMap
            (fun rl => rl.rows.map (deleteSqlText d))) ++
          (tx.records.reverse.filterMap id).map (deleteSqlText d)) ++
        (if tx.manual then [] else [d.commitSql])) := by
  constructor
  · intro ops h
    obtain ⟨hbody, htrace⟩ :=
      withTransaction_trace d tx.manual (updateBody d tx) ops h
    rw [htrace,
      updateBody_trace d tx (updateBody d tx).1 (by rw [← hbody])]
  · intro ops h
    obtain ⟨hbody, htrace⟩ :=
      withTransaction_trace d tx.manual (deleteBody d tx) ops h
    rw [htrace,
      deleteBody_trace d tx (deleteBody d tx).1 (by rw [← hbody])]

/-- Witness for `update_delete_reverse_order`: the four-table fixture
transaction updated and deleted through the SQLite dialect — the trace runs
lines_two before lines_one and hdr_two before hdr_one. -/
theorem update_delete_reverse_order_witness :
    (transUpdate sqliteDialect orderTrans).1.map CursorOp.sqlText =
      (if orderTrans.manual then [] else [sqliteDialect.beginTransactionSql]) ++
      (((orderTrans.recordlists.reverse.filter RecordList.isTableType).flatMap
          (fun rl => rl.rows.map (updateSqlText sqliteDialect))) ++
        (orderTrans.records.reverse.filterMap id).map
          (updateSqlText sqliteDialect)) ++
      (if orderTrans.manual then [] else [sqliteDialect.commitSql]) ∧
    (transDelete sqliteDialect orderTrans).1.map CursorOp.sqlText =
      (if orderTrans.manual then [] else [sqliteDialect.beginTransactionSql]) ++
      (((orderTrans.recordlists.reverse.filter RecordList.isTableType).flatMap
          (fun rl => rl.rows.map (deleteSqlText sqliteDialect))) ++
        (orderTrans.records.reverse.filterMap id).map
          (deleteSqlText sqliteDialect)) ++
      (if orderTrans.manual then [] else [sqliteDialect.commitSql]) :=
  ⟨(update_delete_reverse_order sqliteDialect orderTrans).1
      (transUpdate sqliteDialect orderTrans).1 rfl,
   (update_delete_reverse_order sqliteDialect orderTrans).2
      (transDelete sqliteDialect orderTrans).1 rfl⟩

/-! ### C1 — _insert_existing and a non-True `_verify` result -/

/-- C1: the code path `if not self._verify()` accepts any truthy `_verify`
result.  For the two-row accounting transaction whose `_verify` returns the
non-empty string "unbalanced", `_insert_existing` raises nothing and executes
the batched INSERT of the detail rows (and then COMMIT) — although the claim,
and the docstring of `_verify` itself (transactions.py lines 187-188), say a
string result raises VerificationError before any SQL is issued. -/
theorem insertExisting_truthy_verify_inserts :
    transInsertExisting sqliteDialect unbalancedTrans =
      ([CursorOp.execute "BEGIN TRANSACTION;" [],
        CursorOp.executeMany
          "INSERT INTO journal_row (trans_id, row_id, amount) VALUES (?, ?, ?);"
          [[.int 7, .int 1, .int 5], [.int 7, .int 2, .int 6]],
        CursorOp.execute "COMMIT;" []], Option.none) := rfl

end Pyxact
